import Mathlib

/-!
Verification development for the Garnet NoC flit-visualizer core
(`src/pages/4_Model.py`): the event decoder, the per-tick occupancy
tracker and the frame sampler/renderer, together with the mesh topology
generator.  Python dictionaries are embedded as association lists kept in
insertion order with unique keys; the binary log is a list of byte
values; machine integers do not overflow in any of the modelled code, so
plain naturals are used.
-/

set_option maxHeartbeats 1000000

namespace GarnetViz

/-! ### Data model: decoded event records (§ decode loop, 4_Model.py lines 61-79)

The wire `status` tag plus the tag-dependent payload fields: `RI`
carries `src`/`dest`, the location-bearing tags `SI`/`RR`/`ST`/`DT`
carry the single reused `link_id` field, `SE` carries nothing. -/

inductive EvKind where
  | RI (src dest : Nat)
  | SI (location_id : Nat)
  | RR (location_id : Nat)
  | ST (location_id : Nat)
  | DT (location_id : Nat)
  | SE
deriving DecidableEq

structure Ev where
  tick : Nat
  global_id : Nat
  pack_id : Nat
  flit_id : Nat
  kind : EvKind
deriving DecidableEq

/-- The `location_type`/`location_id` pair of a tracked flit.  The code
only ever stores `(None, None)`, `('router', id)`, `('link', id)` or
`('ejected', None)`, so the pair is embedded as this four-way sum. -/
inductive FlitLoc where
  | unset
  | atRouter (id : Nat)
  | onLink (id : Nat)
  | ejected
deriving DecidableEq

/-- One entry of the `flit_locations` table (lines 105-112). -/
structure FlitRec where
  src : Nat
  dest : Nat
  pack_id : Nat
  flit_id : Nat
  loc : FlitLoc
deriving DecidableEq

/-- The flit summary stored into a snapshot (lines 153-159). -/
structure FlitInfo where
  global_id : Nat
  src : Nat
  dest : Nat
  pack_id : Nat
  flit_id : Nat
deriving DecidableEq

/-- One snapshot: `{'routers': defaultdict(list), 'links': defaultdict(list)}`
embedded as two association lists in key-insertion order. -/
structure Snapshot where
  routers : List (Nat × List FlitInfo)
  links : List (Nat × List FlitInfo)
deriving DecidableEq

def emptySnap : Snapshot := ⟨[], []⟩

/-! ### Association-list embedding of Python dicts -/

/-- Dictionary lookup (first matching key; keys are unique by construction). -/
def alookup {α : Type} : Nat → List (Nat × α) → Option α
  | _, [] => none
  | g, (k, v) :: rest => if k = g then some v else alookup g rest

def keysOf {α : Type} (m : List (Nat × α)) : List Nat := m.map Prod.fst

/-- Dictionary assignment `m[g] = v`: overwrite in place, or append a new
binding at the end (Python dicts preserve insertion order). -/
def dictSet {α : Type} : List (Nat × α) → Nat → α → List (Nat × α)
  | [], g, v => [(g, v)]
  | (k, w) :: rest, g, v => if k = g then (k, v) :: rest else (k, w) :: dictSet rest g v

/-- In-place mutation of the `location_type`/`location_id` of an existing
entry; a no-op when the key is absent (the code guards the mutation with
`if global_id in flit_locations`). -/
def setLoc : List (Nat × FlitRec) → Nat → FlitLoc → List (Nat × FlitRec)
  | [], _, _ => []
  | (k, r) :: rest, g, loc =>
    if k = g then (k, { r with loc := loc }) :: rest else (k, r) :: setLoc rest g loc

/-- `defaultdict(list)` append: `m[k].append(v)`. -/
def addToGroup : List (Nat × List FlitInfo) → Nat → FlitInfo → List (Nat × List FlitInfo)
  | [], k, v => [(k, [v])]
  | (k0, l0) :: rest, k, v =>
    if k0 = k then (k0, l0 ++ [v]) :: rest else (k0, l0) :: addToGroup rest k v

/-- Lookup with default `[]`, i.e. `snap['routers'].get(r, [])`. -/
def snapGet (m : List (Nat × List FlitInfo)) (k : Nat) : List FlitInfo :=
  (alookup k m).getD []

/-! ### Event Decoder (4_Model.py lines 30-86) -/

/-- How the decode loop ended: clean end-of-stream, `struct.error` on a
short length prefix (the `return {}` path, line 44), or a truncated final
payload (the `break` path, line 50). -/
inductive DecodeStatus where
  | ok
  | lenErr
  | truncated
deriving DecidableEq

/-- `struct.unpack('<I', b)[0]` for a 4-byte buffer. -/
def leU32 : List Nat → Nat
  | [b0, b1, b2, b3] => b0 + 256 * b1 + 65536 * b2 + 16777216 * b3
  | _ => 0

/-- The length-prefixed decode loop (lines 32-79).  `P` stands for
`GarnetEvent.ParseFromString` plus the `evt_data` dictionary construction
(lines 53-77): it turns one payload into one event record, or fails
(`continue` path, line 58).  Reading 4 prefix bytes plus the declared
payload consumes at least four bytes per iteration, so the loop
terminates on the byte-list length. -/
def decodeEvents (P : List Nat → Option Ev) (bytes : List Nat) : List Ev × DecodeStatus :=
  if bytes = [] then ([], .ok)
  else if bytes.length < 4 then ([], .lenErr)
  else
    let msgLen := leU32 (bytes.take 4)
    let body := (bytes.drop 4).take msgLen
    let rest := (bytes.drop 4).drop msgLen
    if body.length ≠ msgLen then ([], .truncated)
    else
      match P body with
      | none => decodeEvents P rest
      | some e =>
        let r := decodeEvents P rest
        (e :: r.1, r.2)
termination_by bytes.length
decreasing_by
  all_goals
    simp only [List.length_drop]
    omega

/-! ### Modelled payload codec

Modelled from the spec: the protobuf `GarnetEvent` payload serialization
(`utils/garnet_event_pb2` is generated code that is not present under
`src/`).  The spec (§6) fixes the logical fields: `tick`, `status`,
`global_id`, `packet_id`, `id`, and the context-dependent `src`/`dest`
(inject tag) and `link_id` (reused per tag).  The model serializes those
fields as a fixed seven-value payload; only its length and
invertibility matter to the framing claims. -/

def encKind : EvKind → Nat
  | .RI _ _ => 0
  | .SI _ => 1
  | .RR _ => 2
  | .ST _ => 3
  | .DT _ => 4
  | .SE => 5

def kindArgs : EvKind → Nat × Nat
  | .RI s d => (s, d)
  | .SI l => (l, 0)
  | .RR l => (l, 0)
  | .ST l => (l, 0)
  | .DT l => (l, 0)
  | .SE => (0, 0)

/-- Modelled from the spec: the serialized `GarnetEvent` payload. -/
def payloadOf (e : Ev) : List Nat :=
  [encKind e.kind, e.tick, e.global_id, e.pack_id, e.flit_id,
   (kindArgs e.kind).1, (kindArgs e.kind).2]

/-- Modelled from the spec: `GarnetEvent.ParseFromString` plus the
`evt_data` construction of lines 53-77; fails on any malformed payload. -/
def parseGarnetEvent : List Nat → Option Ev
  | [k, t, g, p, f, x, y] =>
    match k with
    | 0 => some ⟨t, g, p, f, .RI x y⟩
    | 1 => some ⟨t, g, p, f, .SI x⟩
    | 2 => some ⟨t, g, p, f, .RR x⟩
    | 3 => some ⟨t, g, p, f, .ST x⟩
    | 4 => some ⟨t, g, p, f, .DT x⟩
    | 5 => some ⟨t, g, p, f, .SE⟩
    | _ => none
  | _ => none

/-- One framed record: 4-byte little-endian length prefix then the payload. -/
def frameBytes (e : Ev) : List Nat := [7, 0, 0, 0] ++ payloadOf e

/-- A valid encoding of a whole event sequence. -/
def encodeAll : List Ev → List Nat
  | [] => []
  | e :: rest => frameBytes e ++ encodeAll rest

/-! ### Occupancy Tracker (4_Model.py lines 88-175) -/

def infoOf (p : Nat × FlitRec) : FlitInfo :=
  ⟨p.1, p.2.src, p.2.dest, p.2.pack_id, p.2.flit_id⟩

/-- Applying one event to the `flit_locations` table (lines 101-144):
`RI` creates/overwrites the entry with an unset location; the
location-bearing tags mutate the entry when it exists (and silently do
nothing when it does not). -/
def applyEvent (tbl : List (Nat × FlitRec)) (e : Ev) : List (Nat × FlitRec) :=
  match e.kind with
  | .RI s d => dictSet tbl e.global_id ⟨s, d, e.pack_id, e.flit_id, .unset⟩
  | .SI l => setLoc tbl e.global_id (.atRouter l)
  | .RR l => setLoc tbl e.global_id (.atRouter l)
  | .ST l => setLoc tbl e.global_id (.onLink l)
  | .DT l => setLoc tbl e.global_id (.onLink l)
  | .SE => setLoc tbl e.global_id .ejected

def applyAll (tbl : List (Nat × FlitRec)) (l : List Ev) : List (Nat × FlitRec) :=
  l.foldl applyEvent tbl

/-- The snapshot loop (lines 146-173): iterate `flit_locations.items()`
in insertion order and append each placed flit's summary to the
router/link group of its current location; unset and ejected flits are
skipped. -/
def mkSnapshot (tbl : List (Nat × FlitRec)) : Snapshot :=
  tbl.foldl
    (fun s p =>
      match p.2.loc with
      | .atRouter i => { s with routers := addToGroup s.routers i (infoOf p) }
      | .onLink i => { s with links := addToGroup s.links i (infoOf p) }
      | _ => s)
    emptySnap

/-- Stable insertion of `e` into a key-sorted list: walk past strictly
smaller keys and insert before the first element whose key is ≥. -/
def insBy {α : Type} (key : α → Nat) (e : α) : List α → List α
  | [] => [e]
  | x :: xs => if key x < key e then x :: insBy key e xs else e :: x :: xs

/-- Stable sort by a natural-number key (Python `list.sort(key=...)` is
stable; so is this insertion sort). -/
def sortBy {α : Type} (key : α → Nat) (l : List α) : List α :=
  l.foldr (insBy key) []

/-- `events.sort(key=lambda x: x['tick'])` (line 89). -/
def sortEvents (l : List Ev) : List Ev := sortBy Ev.tick l

/-- The tracking loop (lines 94-173): apply each event, then store a
fresh full-state snapshot under the event's tick (`tick_states[tick] =
snapshot`; the last event of a tick wins). -/
def trackLoop : List Ev → List (Nat × FlitRec) → List (Nat × Snapshot) → List (Nat × Snapshot)
  | [], _, st => st
  | e :: rest, tbl, st =>
    let tbl2 := applyEvent tbl e
    trackLoop rest tbl2 (dictSet st e.tick (mkSnapshot tbl2))

/-- The sorting-and-tracking section of `parse_log` (lines 88-175),
mapping the decoded event records to the `tick_states` dictionary. -/
def buildTickStates (evs : List Ev) : List (Nat × Snapshot) :=
  trackLoop (sortEvents evs) [] []

/-- The whole of `parse_log` after the file has been read: the decode
loop followed by tracking.  A `struct.error` on the length prefix takes
the `return {}` path (line 44), discarding every decoded event; the
other two exits proceed to tracking. -/
def parse_log (P : List Nat → Option Ev) (bytes : List Nat) : List (Nat × Snapshot) :=
  match decodeEvents P bytes with
  | (_, .lenErr) => []
  | (evs, _) => buildTickStates evs

/-- The location table as it stands after every event with tick ≤ t has
been applied in stable tick order (the tracker's internal state when the
tick-`t` snapshot is stored). -/
def tableUpTo (evs : List Ev) (t : Nat) : List (Nat × FlitRec) :=
  applyAll [] ((sortEvents evs).filter (fun e => e.tick ≤ t))

/-- Flit `gid` occurs among a location set's resident summaries. -/
def appearsIn (gid : Nat) (l : List FlitInfo) : Prop :=
  ∃ info ∈ l, info.global_id = gid

instance (gid : Nat) (l : List FlitInfo) : Decidable (appearsIn gid l) :=
  inferInstanceAs (Decidable (∃ info ∈ l, info.global_id = gid))

/-- Flit `gid` is resident somewhere in a snapshot. -/
def presentIn (gid : Nat) (s : Snapshot) : Prop :=
  (∃ r, appearsIn gid (snapGet s.routers r)) ∨ (∃ l, appearsIn gid (snapGet s.links l))

def isRI : EvKind → Bool
  | .RI _ _ => true
  | _ => false

/-- The event tags that place a flit at a location (`SI`/`RR`/`ST`/`DT`). -/
def isPlacing : EvKind → Bool
  | .SI _ => true
  | .RR _ => true
  | .ST _ => true
  | .DT _ => true
  | _ => false

def FlitLoc.isPlaced : FlitLoc → Bool
  | .atRouter _ => true
  | .onLink _ => true
  | _ => false

/-- No placing event for flit `gid` occurs after an `SE` for `gid`. -/
def NoResurrect (gid : Nat) (l : List Ev) : Prop :=
  List.Pairwise
    (fun a b => ¬(a.global_id = gid ∧ a.kind = .SE ∧ b.global_id = gid ∧ isPlacing b.kind = true))
    l

instance (gid : Nat) (l : List Ev) : Decidable (NoResurrect gid l) :=
  inferInstanceAs (Decidable (List.Pairwise _ l))

/-! ### Topology generator `build_mesh_xy` (4_Model.py lines 180-226) -/

/-- East-output-to-west-input links, ids `0 .. n*(n-1) - 1` (lines 191-197). -/
def eastLinks (n : Nat) : List (Nat × Nat) :=
  (List.range n).flatMap fun row =>
    (List.range n).filterMap fun col =>
      if col + 1 < n then some (col + row * n, (col + 1) + row * n) else none

/-- West-output-to-east-input links, the next `n*(n-1)` ids (lines 200-206). -/
def westLinks (n : Nat) : List (Nat × Nat) :=
  (List.range n).flatMap fun row =>
    (List.range n).filterMap fun col =>
      if col + 1 < n then some ((col + 1) + row * n, col + row * n) else none

/-- North-output-to-south-input links (lines 209-215; outer loop over columns). -/
def northLinks (n : Nat) : List (Nat × Nat) :=
  (List.range n).flatMap fun col =>
    (List.range n).filterMap fun row =>
      if row + 1 < n then some (col + row * n, col + (row + 1) * n) else none

/-- South-output-to-north-input links (lines 218-224). -/
def southLinks (n : Nat) : List (Nat × Nat) :=
  (List.range n).flatMap fun col =>
    (List.range n).filterMap fun row =>
      if row + 1 < n then some (col + (row + 1) * n, col + row * n) else none

/-- `build_mesh_xy(n)`: router dict `{r: (r // n, r % n)}` and the link
dict with consecutive integer ids `0, 1, ...`, embedded as the list whose
position is the id. -/
def build_mesh_xy (n : Nat) :
    List (Nat × (Nat × Nat)) × List (Nat × Nat) :=
  ((List.range (n * n)).map (fun r => (r, (r / n, r % n))),
    eastLinks n ++ westLinks n ++ northLinks n ++ southLinks n)

/-- The two grid coordinates of a link's endpoints differ by exactly one
step in exactly one axis. -/
def adjStep (n : Nat) (pr : Nat × Nat) : Prop :=
  (pr.1 / n = pr.2 / n ∧ (pr.1 % n + 1 = pr.2 % n ∨ pr.2 % n + 1 = pr.1 % n)) ∨
  (pr.1 % n = pr.2 % n ∧ (pr.1 / n + 1 = pr.2 / n ∨ pr.2 / n + 1 = pr.1 / n))

/-! ### Frame Sampler / Renderer (4_Model.py lines 229-315) -/

/-- `range(0, max_tick + 1, interval)` for a positive step. -/
def tickSamples (maxT interval : Nat) : List Nat :=
  (List.range (maxT / interval + 1)).map (fun k => k * interval)

/-- Frame selection for sample tick `t` (lines 241-246): the snapshot at
the most recent eventful tick ≤ t, else an empty snapshot.  The lookup
default is never used: the last element of `available_ticks` is drawn
from the mapping's own keys. -/
def frameSnap (snaps : List (Nat × Snapshot)) (ticksAll : List Nat) (t : Nat) : Snapshot :=
  match (ticksAll.filter (fun tk => tk ≤ t)).getLast? with
  | some tk => (alookup tk snaps).getD emptySnap
  | none => emptySnap

/-- The frame sequence of `make_animation` (lines 230-246): sorted tick
keys, sample points `range(0, max_tick+1, interval)`, one frame per
sample point.  An empty snapshot mapping raises `ValueError` (line 232),
modelled as `none`. -/
def make_frames (snaps : List (Nat × Snapshot)) (interval : Nat) :
    Option (List (Nat × Snapshot)) :=
  match sortBy (fun t => t) (keysOf snaps) with
  | [] => none
  | t0 :: ts =>
    let ticksAll := t0 :: ts
    let maxT := ticksAll.getLastD 0
    some ((tickSamples maxT interval).map (fun t => (t, frameSnap snaps ticksAll t)))

/-- Router marker size (line 251): `len(...)*5 + 10`. -/
def routerSize (s : Snapshot) (r : Nat) : Nat :=
  (snapGet s.routers r).length * 5 + 10

/-- Router color (line 252): green iff occupied. -/
def routerColor (s : Snapshot) (r : Nat) : String :=
  if 0 < (snapGet s.routers r).length then "green" else "steelblue"

/-- Link stroke width (line 288): `max(2, len(flits) * 2)`. -/
def linkWidth (s : Snapshot) (lid : Nat) : Nat :=
  max 2 ((snapGet s.links lid).length * 2)

/-- The sibling link id consulted for the highlight (lines 273-276):
`lid - 12` when the source router id exceeds the destination id, else
`lid + 12`. -/
def siblingId (lid a b : Nat) : Nat :=
  if b < a then lid - 12 else lid + 12

/-- `flag = len(flits1) > 0 or len(flits) > 0` (line 290). -/
def linkFlag (s : Snapshot) (lid a b : Nat) : Bool :=
  decide (0 < (snapGet s.links (siblingId lid a b)).length) ||
    decide (0 < (snapGet s.links lid).length)

/-- Link color (line 292): red iff flagged. -/
def linkColor (s : Snapshot) (lid a b : Nat) : String :=
  if linkFlag s lid a b then "red" else "lightgray"

/-- The sibling-offset pairing check the renderer relies on: for every
link id, looking 12 ids ahead (source < dest) or 12 ids back (source >
dest) lands on the opposite-direction link over the same router pair. -/
def siblingCheck (n lid : Nat) : Bool :=
  match (build_mesh_xy n).2[lid]? with
  | some (a, b) => decide ((build_mesh_xy n).2[siblingId lid a b]? = some (b, a))
  | none => true

def siblingOK (n : Nat) : Prop :=
  ∀ lid < (build_mesh_xy n).2.length, siblingCheck n lid = true

instance (n : Nat) : Decidable (siblingOK n) :=
  inferInstanceAs (Decidable (∀ lid < (build_mesh_xy n).2.length, siblingCheck n lid = true))

/-! ### Lemmas: association lists -/

theorem alookup_dictSet_self {α : Type} (m : List (Nat × α)) (g : Nat) (v : α) :
    alookup g (dictSet m g v) = some v := by
  induction m with
  | nil => simp [dictSet, alookup]
  | cons p rest ih =>
    obtain ⟨k, w⟩ := p
    by_cases h : k = g
    · simp [dictSet, h, alookup]
    · simp [dictSet, h, alookup, ih]

theorem alookup_dictSet_ne {α : Type} (m : List (Nat × α)) (g g2 : Nat) (v : α)
    (h : g ≠ g2) : alookup g2 (dictSet m g v) = alookup g2 m := by
  induction m with
  | nil => simp [dictSet, alookup, h]
  | cons p rest ih =>
    obtain ⟨k, w⟩ := p
    by_cases hk : k = g
    · subst hk
      simp [dictSet, alookup, h]
    · by_cases hk2 : k = g2 <;> simp [dictSet, alookup, hk, hk2, ih, Ne.symm h]

theorem keysOf_nil {α : Type} : keysOf ([] : List (Nat × α)) = [] := rfl

theorem keysOf_cons {α : Type} (p : Nat × α) (m : List (Nat × α)) :
    keysOf (p :: m) = p.1 :: keysOf m := rfl

theorem mem_keysOf_dictSet {α : Type} (m : List (Nat × α)) (g g2 : Nat) (v : α) :
    g2 ∈ keysOf (dictSet m g v) ↔ g2 ∈ keysOf m ∨ g2 = g := by
  induction m with
  | nil =>
    simp only [dictSet, keysOf_cons, keysOf_nil, List.mem_cons, List.not_mem_nil]
    tauto
  | cons p rest ih =>
    obtain ⟨k, w⟩ := p
    by_cases hk : k = g
    · subst hk
      have hset : dictSet ((k, w) :: rest) k v = (k, v) :: rest := by simp [dictSet]
      rw [hset, keysOf_cons, keysOf_cons]
      simp only [List.mem_cons]
      tauto
    · have hset : dictSet ((k, w) :: rest) g v = (k, w) :: dictSet rest g v := by
        simp [dictSet, hk]
      rw [hset, keysOf_cons, keysOf_cons]
      simp only [List.mem_cons, ih]
      tauto

theorem nodup_keysOf_dictSet {α : Type} (m : List (Nat × α)) (g : Nat) (v : α)
    (h : (keysOf m).Nodup) : (keysOf (dictSet m g v)).Nodup := by
  induction m with
  | nil => simp [dictSet, keysOf_cons, keysOf_nil]
  | cons p rest ih =>
    obtain ⟨k, w⟩ := p
    rw [keysOf_cons, List.nodup_cons] at h
    by_cases hk : k = g
    · subst hk
      rw [dictSet, if_pos rfl, keysOf_cons, List.nodup_cons]
      exact h
    · rw [dictSet, if_neg hk, keysOf_cons, List.nodup_cons]
      refine ⟨?_, ih h.2⟩
      intro hc
      rcases (mem_keysOf_dictSet rest g k v).1 hc with hm | he
      · exact h.1 hm
      · exact hk he

theorem mem_of_alookup {α : Type} (m : List (Nat × α)) (g : Nat) (v : α)
    (h : alookup g m = some v) : (g, v) ∈ m := by
  induction m with
  | nil => simp [alookup] at h
  | cons p rest ih =>
    obtain ⟨k, w⟩ := p
    by_cases hk : k = g
    · subst hk
      rw [alookup, if_pos rfl] at h
      obtain rfl := Option.some.inj h
      exact List.mem_cons_self _ _
    · rw [alookup, if_neg hk] at h
      exact List.mem_cons_of_mem _ (ih h)

theorem alookup_of_mem_nodup {α : Type} (m : List (Nat × α)) (g : Nat) (v : α)
    (hm : (g, v) ∈ m) (hnd : (keysOf m).Nodup) : alookup g m = some v := by
  induction m with
  | nil => simp at hm
  | cons p rest ih =>
    obtain ⟨k, w⟩ := p
    rw [keysOf_cons, List.nodup_cons] at hnd
    rcases List.mem_cons.1 hm with he | hm2
    · have h1 : g = k := congrArg Prod.fst he
      have h2 : v = w := congrArg Prod.snd he
      subst h1
      subst h2
      rw [alookup, if_pos rfl]
    · have hk : k ≠ g := by
        intro hk
        subst hk
        exact hnd.1 (List.mem_map.2 ⟨(k, v), hm2, rfl⟩)
      rw [alookup, if_neg hk]
      exact ih hm2 hnd.2

theorem alookup_isSome_of_mem_keys {α : Type} (m : List (Nat × α)) (g : Nat)
    (h : g ∈ keysOf m) : ∃ v, alookup g m = some v := by
  induction m with
  | nil => simp [keysOf] at h
  | cons p rest ih =>
    obtain ⟨k, w⟩ := p
    by_cases hk : k = g
    · exact ⟨w, by simp [alookup, hk]⟩
    · simp only [keysOf, List.map_cons, List.mem_cons] at h
      rcases h with h | h
      · exact absurd h.symm hk
      · simpa [alookup, hk] using ih h

theorem mem_keys_of_alookup {α : Type} (m : List (Nat × α)) (g : Nat) (v : α)
    (h : alookup g m = some v) : g ∈ keysOf m :=
  List.mem_map_of_mem Prod.fst (mem_of_alookup m g v h)

/-! ### Lemmas: setLoc -/

theorem keysOf_setLoc (m : List (Nat × FlitRec)) (g : Nat) (loc : FlitLoc) :
    keysOf (setLoc m g loc) = keysOf m := by
  induction m with
  | nil => simp [setLoc]
  | cons p rest ih =>
    obtain ⟨k, w⟩ := p
    by_cases hk : k = g
    · simp [setLoc, hk, keysOf] at ih ⊢
    · simp [setLoc, hk, keysOf] at ih ⊢
      exact ih

theorem alookup_setLoc_self (m : List (Nat × FlitRec)) (g : Nat) (loc : FlitLoc) :
    alookup g (setLoc m g loc) = (alookup g m).map (fun r => { r with loc := loc }) := by
  induction m with
  | nil => simp [setLoc, alookup]
  | cons p rest ih =>
    obtain ⟨k, w⟩ := p
    by_cases hk : k = g <;> simp [setLoc, hk, alookup, ih]

theorem alookup_setLoc_ne (m : List (Nat × FlitRec)) (g g2 : Nat) (loc : FlitLoc)
    (h : g ≠ g2) : alookup g2 (setLoc m g loc) = alookup g2 m := by
  induction m with
  | nil => simp [setLoc]
  | cons p rest ih =>
    obtain ⟨k, w⟩ := p
    by_cases hk : k = g
    · subst hk
      simp [setLoc, alookup, h]
    · by_cases hk2 : k = g2 <;> simp [setLoc, alookup, hk, hk2, ih, Ne.symm h]

/-! ### Lemmas: stable insertion sort -/

theorem mem_insBy {α : Type} (key : α → Nat) (e : α) (l : List α) (y : α) :
    y ∈ insBy key e l ↔ y = e ∨ y ∈ l := by
  induction l with
  | nil => simp [insBy]
  | cons x xs ih =>
    by_cases h : key x < key e
    · simp only [insBy, if_pos h, List.mem_cons, ih]
      tauto
    · simp only [insBy, if_neg h, List.mem_cons]

theorem mem_sortBy {α : Type} (key : α → Nat) (l : List α) (y : α) :
    y ∈ sortBy key l ↔ y ∈ l := by
  induction l with
  | nil => simp [sortBy]
  | cons x xs ih =>
    show y ∈ insBy key x (sortBy key xs) ↔ _
    rw [mem_insBy, ih]
    simp

theorem pairwise_insBy {α : Type} (key : α → Nat) (e : α) (l : List α)
    (h : l.Pairwise (fun a b => key a ≤ key b)) :
    (insBy key e l).Pairwise (fun a b => key a ≤ key b) := by
  induction l with
  | nil => simp [insBy]
  | cons x xs ih =>
    rw [List.pairwise_cons] at h
    by_cases hx : key x < key e
    · rw [insBy, if_pos hx, List.pairwise_cons]
      refine ⟨?_, ih h.2⟩
      intro y hy
      rcases (mem_insBy key e xs y).1 hy with rfl | hy
      · exact Nat.le_of_lt hx
      · exact h.1 y hy
    · rw [insBy, if_neg hx, List.pairwise_cons]
      refine ⟨?_, List.pairwise_cons.2 h⟩
      intro y hy
      rcases List.mem_cons.1 hy with rfl | hy
      · exact Nat.le_of_not_lt hx
      · exact Nat.le_trans (Nat.le_of_not_lt hx) (h.1 y hy)

theorem pairwise_sortBy {α : Type} (key : α → Nat) (l : List α) :
    (sortBy key l).Pairwise (fun a b => key a ≤ key b) := by
  induction l with
  | nil => simp [sortBy]
  | cons x xs ih => exact pairwise_insBy key x _ ih

theorem nodup_insBy {α : Type} (key : α → Nat) (e : α) (l : List α)
    (hl : l.Nodup) (he : e ∉ l) : (insBy key e l).Nodup := by
  induction l with
  | nil => simp [insBy]
  | cons x xs ih =>
    simp only [List.nodup_cons] at hl
    simp only [List.mem_cons, not_or] at he
    by_cases hx : key x < key e
    · rw [insBy, if_pos hx, List.nodup_cons]
      refine ⟨?_, ih hl.2 he.2⟩
      rw [mem_insBy]
      rintro (rfl | hc)
      · exact he.1 rfl
      · exact hl.1 hc
    · rw [insBy, if_neg hx, List.nodup_cons, List.nodup_cons]
      refine ⟨?_, hl.1, hl.2⟩
      rw [List.mem_cons]
      rintro (rfl | hc)
      · exact he.1 rfl
      · exact he.2 hc

theorem nodup_sortBy {α : Type} (key : α → Nat) (l : List α) (h : l.Nodup) :
    (sortBy key l).Nodup := by
  induction l with
  | nil => simp [sortBy]
  | cons x xs ih =>
    simp only [List.nodup_cons] at h
    exact nodup_insBy key x _ (ih h.2) (fun hc => h.1 ((mem_sortBy key xs x).1 hc))

theorem filter_insBy {α : Type} (key : α → Nat) (t : Nat) (e : α) (l : List α) :
    (insBy key e l).filter (fun x => key x = t) =
      if key e = t then e :: l.filter (fun x => key x = t)
      else l.filter (fun x => key x = t) := by
  induction l with
  | nil => by_cases het : key e = t <;> simp [insBy, List.filter, het]
  | cons x xs ih =>
    by_cases hx : key x < key e
    · rw [insBy, if_pos hx]
      by_cases het : key e = t
      · have hxt : ¬ (key x = t) := by omega
        simp [List.filter_cons, het, hxt, ih]
      · by_cases hxt : key x = t <;> simp [List.filter_cons, het, hxt, ih]
    · rw [insBy, if_neg hx]
      by_cases het : key e = t <;> simp [List.filter_cons, het]

theorem filter_sortBy_eq {α : Type} (key : α → Nat) (t : Nat) (l : List α) :
    (sortBy key l).filter (fun x => key x = t) = l.filter (fun x => key x = t) := by
  induction l with
  | nil => simp [sortBy]
  | cons x xs ih =>
    show (insBy key x (sortBy key xs)).filter _ = _
    rw [filter_insBy, ih]
    by_cases hxt : key x = t <;> simp [List.filter_cons, hxt]

theorem length_insBy {α : Type} (key : α → Nat) (e : α) (l : List α) :
    (insBy key e l).length = l.length + 1 := by
  induction l with
  | nil => simp [insBy]
  | cons x xs ih =>
    by_cases hx : key x < key e <;> simp [insBy, hx, ih]

theorem length_sortBy {α : Type} (key : α → Nat) (l : List α) :
    (sortBy key l).length = l.length := by
  induction l with
  | nil => simp [sortBy]
  | cons x xs ih =>
    show (insBy key x (sortBy key xs)).length = _
    rw [length_insBy, ih]
    simp

/-! ### Lemmas: snapshot construction -/

/-- The router-group entry selector used to characterize `mkSnapshot`. -/
def routerSel (r : Nat) (p : Nat × FlitRec) : Option FlitInfo :=
  match p.2.loc with
  | .atRouter i => if i = r then some (infoOf p) else none
  | _ => none

/-- The link-group entry selector used to characterize `mkSnapshot`. -/
def linkSel (r : Nat) (p : Nat × FlitRec) : Option FlitInfo :=
  match p.2.loc with
  | .onLink i => if i = r then some (infoOf p) else none
  | _ => none

theorem snapGet_addToGroup (m : List (Nat × List FlitInfo)) (k : Nat) (v : FlitInfo) (r : Nat) :
    snapGet (addToGroup m k v) r =
      if k = r then snapGet m r ++ [v] else snapGet m r := by
  induction m with
  | nil =>
    by_cases hk : k = r <;> simp [addToGroup, snapGet, alookup, hk]
  | cons p rest ih =>
    obtain ⟨k0, l0⟩ := p
    by_cases h0 : k0 = k
    · subst h0
      by_cases hk : k0 = r <;> simp [addToGroup, snapGet, alookup, hk]
    · by_cases h0r : k0 = r
      · subst h0r
        simp [addToGroup, h0, snapGet, alookup, Ne.symm h0]
      · simp [addToGroup, h0, snapGet, alookup, h0r] at ih ⊢
        exact ih

/-- One step of the snapshot loop, applied to an arbitrary accumulator. -/
def snapStep (s : Snapshot) (p : Nat × FlitRec) : Snapshot :=
  match p.2.loc with
  | .atRouter i => { s with routers := addToGroup s.routers i (infoOf p) }
  | .onLink i => { s with links := addToGroup s.links i (infoOf p) }
  | _ => s

theorem mkSnapshot_eq_foldl (tbl : List (Nat × FlitRec)) :
    mkSnapshot tbl = tbl.foldl snapStep emptySnap := rfl

theorem snapGet_foldl_routers (tbl : List (Nat × FlitRec)) (s0 : Snapshot) (r : Nat) :
    snapGet (tbl.foldl snapStep s0).routers r =
      snapGet s0.routers r ++ tbl.filterMap (routerSel r) := by
  induction tbl generalizing s0 with
  | nil => simp
  | cons p rest ih =>
    rw [List.foldl_cons, ih, List.filterMap_cons]
    cases hloc : p.2.loc with
    | atRouter i =>
      by_cases hi : i = r
      · subst hi
        simp [snapStep, hloc, routerSel, snapGet_addToGroup]
      · simp [snapStep, hloc, routerSel, hi, snapGet_addToGroup]
    | onLink i => simp [snapStep, hloc, routerSel]
    | unset => simp [snapStep, hloc, routerSel]
    | ejected => simp [snapStep, hloc, routerSel]

theorem snapGet_foldl_links (tbl : List (Nat × FlitRec)) (s0 : Snapshot) (r : Nat) :
    snapGet (tbl.foldl snapStep s0).links r =
      snapGet s0.links r ++ tbl.filterMap (linkSel r) := by
  induction tbl generalizing s0 with
  | nil => simp
  | cons p rest ih =>
    rw [List.foldl_cons, ih, List.filterMap_cons]
    cases hloc : p.2.loc with
    | onLink i =>
      by_cases hi : i = r
      · subst hi
        simp [snapStep, hloc, linkSel, snapGet_addToGroup]
      · simp [snapStep, hloc, linkSel, hi, snapGet_addToGroup]
    | atRouter i => simp [snapStep, hloc, linkSel]
    | unset => simp [snapStep, hloc, linkSel]
    | ejected => simp [snapStep, hloc, linkSel]

theorem snapGet_mkSnapshot_routers (tbl : List (Nat × FlitRec)) (r : Nat) :
    snapGet (mkSnapshot tbl).routers r = tbl.filterMap (routerSel r) := by
  rw [mkSnapshot_eq_foldl, snapGet_foldl_routers]
  simp [emptySnap, snapGet, alookup]

theorem snapGet_mkSnapshot_links (tbl : List (Nat × FlitRec)) (r : Nat) :
    snapGet (mkSnapshot tbl).links r = tbl.filterMap (linkSel r) := by
  rw [mkSnapshot_eq_foldl, snapGet_foldl_links]
  simp [emptySnap, snapGet, alookup]

/-- A flit occurs in the router-`r` set of a partitioned table iff its
(unique) table entry is placed at router `r`. -/
theorem appearsIn_mkSnapshot_routers (tbl : List (Nat × FlitRec)) (r gid : Nat)
    (hnd : (keysOf tbl).Nodup) :
    appearsIn gid (snapGet (mkSnapshot tbl).routers r) ↔
      ∃ rec, alookup gid tbl = some rec ∧ rec.loc = .atRouter r := by
  rw [snapGet_mkSnapshot_routers]
  constructor
  · rintro ⟨info, hmem, hgid⟩
    rcases List.mem_filterMap.1 hmem with ⟨p, hp, hsel⟩
    obtain ⟨g, rec⟩ := p
    cases hloc : rec.loc with
    | atRouter i =>
      simp only [routerSel, hloc] at hsel
      by_cases hi : i = r
      · rw [if_pos hi] at hsel
        obtain rfl := Option.some.inj hsel
        have hg : g = gid := hgid
        subst hg
        subst hi
        exact ⟨rec, alookup_of_mem_nodup tbl g rec hp hnd, hloc⟩
      · rw [if_neg hi] at hsel
        exact absurd hsel (by simp)
    | onLink i => simp only [routerSel, hloc] at hsel; exact absurd hsel (by simp)
    | unset => simp only [routerSel, hloc] at hsel; exact absurd hsel (by simp)
    | ejected => simp only [routerSel, hloc] at hsel; exact absurd hsel (by simp)
  · rintro ⟨rec, hlk, hloc⟩
    refine ⟨infoOf (gid, rec), List.mem_filterMap.2 ⟨(gid, rec), mem_of_alookup _ _ _ hlk, ?_⟩, rfl⟩
    simp [routerSel, hloc]

theorem appearsIn_mkSnapshot_links (tbl : List (Nat × FlitRec)) (r gid : Nat)
    (hnd : (keysOf tbl).Nodup) :
    appearsIn gid (snapGet (mkSnapshot tbl).links r) ↔
      ∃ rec, alookup gid tbl = some rec ∧ rec.loc = .onLink r := by
  rw [snapGet_mkSnapshot_links]
  constructor
  · rintro ⟨info, hmem, hgid⟩
    rcases List.mem_filterMap.1 hmem with ⟨p, hp, hsel⟩
    obtain ⟨g, rec⟩ := p
    cases hloc : rec.loc with
    | onLink i =>
      simp only [linkSel, hloc] at hsel
      by_cases hi : i = r
      · rw [if_pos hi] at hsel
        obtain rfl := Option.some.inj hsel
        have hg : g = gid := hgid
        subst hg
        subst hi
        exact ⟨rec, alookup_of_mem_nodup tbl g rec hp hnd, hloc⟩
      · rw [if_neg hi] at hsel
        exact absurd hsel (by simp)
    | atRouter i => simp only [linkSel, hloc] at hsel; exact absurd hsel (by simp)
    | unset => simp only [linkSel, hloc] at hsel; exact absurd hsel (by simp)
    | ejected => simp only [linkSel, hloc] at hsel; exact absurd hsel (by simp)
  · rintro ⟨rec, hlk, hloc⟩
    refine ⟨infoOf (gid, rec), List.mem_filterMap.2 ⟨(gid, rec), mem_of_alookup _ _ _ hlk, ?_⟩, rfl⟩
    simp [linkSel, hloc]

/-- Presence anywhere in a partitioned snapshot, via the table entry. -/
theorem presentIn_mkSnapshot (tbl : List (Nat × FlitRec)) (gid : Nat)
    (hnd : (keysOf tbl).Nodup) :
    presentIn gid (mkSnapshot tbl) ↔
      ∃ rec, alookup gid tbl = some rec ∧ rec.loc.isPlaced = true := by
  constructor
  · rintro (⟨r, hr⟩ | ⟨l, hl⟩)
    · rcases (appearsIn_mkSnapshot_routers tbl r gid hnd).1 hr with ⟨rec, hlk, hloc⟩
      exact ⟨rec, hlk, by rw [hloc]; rfl⟩
    · rcases (appearsIn_mkSnapshot_links tbl l gid hnd).1 hl with ⟨rec, hlk, hloc⟩
      exact ⟨rec, hlk, by rw [hloc]; rfl⟩
  · rintro ⟨rec, hlk, hpl⟩
    cases hloc : rec.loc with
    | atRouter i =>
      exact Or.inl ⟨i, (appearsIn_mkSnapshot_routers tbl i gid hnd).2 ⟨rec, hlk, hloc⟩⟩
    | onLink i =>
      exact Or.inr ⟨i, (appearsIn_mkSnapshot_links tbl i gid hnd).2 ⟨rec, hlk, hloc⟩⟩
    | unset => rw [hloc] at hpl; exact absurd hpl (by simp [FlitLoc.isPlaced])
    | ejected => rw [hloc] at hpl; exact absurd hpl (by simp [FlitLoc.isPlaced])

/-! ### Lemmas: applying events to the location table -/

theorem mem_keysOf_applyEvent (tbl : List (Nat × FlitRec)) (e : Ev) (g : Nat) :
    g ∈ keysOf (applyEvent tbl e) ↔
      g ∈ keysOf tbl ∨ (isRI e.kind = true ∧ g = e.global_id) := by
  cases hk : e.kind with
  | RI s d =>
    rw [applyEvent, hk]
    rw [mem_keysOf_dictSet]
    simp [isRI]
  | SI l => rw [applyEvent, hk, keysOf_setLoc]; simp [isRI]
  | RR l => rw [applyEvent, hk, keysOf_setLoc]; simp [isRI]
  | ST l => rw [applyEvent, hk, keysOf_setLoc]; simp [isRI]
  | DT l => rw [applyEvent, hk, keysOf_setLoc]; simp [isRI]
  | SE => rw [applyEvent, hk, keysOf_setLoc]; simp [isRI]

theorem nodup_keysOf_applyEvent (tbl : List (Nat × FlitRec)) (e : Ev)
    (h : (keysOf tbl).Nodup) : (keysOf (applyEvent tbl e)).Nodup := by
  cases hk : e.kind with
  | RI s d => rw [applyEvent, hk]; exact nodup_keysOf_dictSet _ _ _ h
  | SI l => rw [applyEvent, hk, keysOf_setLoc]; exact h
  | RR l => rw [applyEvent, hk, keysOf_setLoc]; exact h
  | ST l => rw [applyEvent, hk, keysOf_setLoc]; exact h
  | DT l => rw [applyEvent, hk, keysOf_setLoc]; exact h
  | SE => rw [applyEvent, hk, keysOf_setLoc]; exact h

theorem alookup_applyEvent_ne (tbl : List (Nat × FlitRec)) (e : Ev) (g : Nat)
    (h : e.global_id ≠ g) : alookup g (applyEvent tbl e) = alookup g tbl := by
  cases hk : e.kind with
  | RI s d => rw [applyEvent, hk]; exact alookup_dictSet_ne _ _ _ _ h
  | SI l => rw [applyEvent, hk]; exact alookup_setLoc_ne _ _ _ _ h
  | RR l => rw [applyEvent, hk]; exact alookup_setLoc_ne _ _ _ _ h
  | ST l => rw [applyEvent, hk]; exact alookup_setLoc_ne _ _ _ _ h
  | DT l => rw [applyEvent, hk]; exact alookup_setLoc_ne _ _ _ _ h
  | SE => rw [applyEvent, hk]; exact alookup_setLoc_ne _ _ _ _ h

theorem mem_keysOf_applyAll (l : List Ev) (tbl : List (Nat × FlitRec)) (g : Nat) :
    g ∈ keysOf (applyAll tbl l) ↔
      g ∈ keysOf tbl ∨ ∃ e ∈ l, isRI e.kind = true ∧ e.global_id = g := by
  induction l generalizing tbl with
  | nil => simp [applyAll]
  | cons e rest ih =>
    rw [show applyAll tbl (e :: rest) = applyAll (applyEvent tbl e) rest from rfl, ih,
      mem_keysOf_applyEvent]
    constructor
    · rintro ((h | ⟨hri, rfl⟩) | ⟨x, hx, hxs⟩)
      · exact Or.inl h
      · exact Or.inr ⟨e, List.mem_cons_self _ _, hri, rfl⟩
      · exact Or.inr ⟨x, List.mem_cons_of_mem _ hx, hxs⟩
    · rintro (h | ⟨x, hx, hri, hg⟩)
      · exact Or.inl (Or.inl h)
      · rcases List.mem_cons.1 hx with rfl | hx2
        · exact Or.inl (Or.inr ⟨hri, hg.symm⟩)
        · exact Or.inr ⟨x, hx2, hri, hg⟩

theorem nodup_keysOf_applyAll (l : List Ev) (tbl : List (Nat × FlitRec))
    (h : (keysOf tbl).Nodup) : (keysOf (applyAll tbl l)).Nodup := by
  induction l generalizing tbl with
  | nil => exact h
  | cons e rest ih =>
    exact ih (applyEvent tbl e) (nodup_keysOf_applyEvent tbl e h)

/-- A non-`RI` event whose flit is not in the table leaves the table
unchanged (the `if global_id in flit_locations` guard, line 115). -/
theorem applyEvent_untracked (tbl : List (Nat × FlitRec)) (e : Ev)
    (hri : isRI e.kind = false) (hnk : e.global_id ∉ keysOf tbl) :
    applyEvent tbl e = tbl := by
  have hset : ∀ loc, setLoc tbl e.global_id loc = tbl := by
    intro loc
    induction tbl with
    | nil => rfl
    | cons p rest ih =>
      obtain ⟨k, w⟩ := p
      rw [keysOf_cons, List.mem_cons] at hnk
      push_neg at hnk
      rw [setLoc, if_neg (fun hc => hnk.1 hc.symm)]
      rw [List.cons_inj_right]
      exact ih hnk.2
  cases hk : e.kind with
  | RI s d => rw [hk] at hri; exact absurd hri (by simp [isRI])
  | SI l => rw [applyEvent, hk]; exact hset _
  | RR l => rw [applyEvent, hk]; exact hset _
  | ST l => rw [applyEvent, hk]; exact hset _
  | DT l => rw [applyEvent, hk]; exact hset _
  | SE => rw [applyEvent, hk]; exact hset _

/-! ### Lemmas: the tracking loop -/

theorem applyAll_cons (tbl : List (Nat × FlitRec)) (e : Ev) (l : List Ev) :
    applyAll tbl (e :: l) = applyAll (applyEvent tbl e) l := rfl

theorem applyAll_append (tbl : List (Nat × FlitRec)) (l1 l2 : List Ev) :
    applyAll tbl (l1 ++ l2) = applyAll (applyAll tbl l1) l2 :=
  List.foldl_append _ _ _ _

theorem mem_keysOf_trackLoop (l : List Ev) (tbl : List (Nat × FlitRec))
    (st : List (Nat × Snapshot)) (t : Nat) :
    t ∈ keysOf (trackLoop l tbl st) ↔ t ∈ keysOf st ∨ ∃ e ∈ l, e.tick = t := by
  induction l generalizing tbl st with
  | nil => simp [trackLoop]
  | cons e rest ih =>
    rw [trackLoop, ih, mem_keysOf_dictSet]
    constructor
    · rintro ((h | h) | ⟨x, hx, hxs⟩)
      · exact Or.inl h
      · exact Or.inr ⟨e, List.mem_cons_self _ _, h.symm⟩
      · exact Or.inr ⟨x, List.mem_cons_of_mem _ hx, hxs⟩
    · rintro (h | ⟨x, hx, hxs⟩)
      · exact Or.inl (Or.inl h)
      · rcases List.mem_cons.1 hx with rfl | hx2
        · exact Or.inl (Or.inr hxs.symm)
        · exact Or.inr ⟨x, hx2, hxs⟩

theorem nodup_keysOf_trackLoop (l : List Ev) (tbl : List (Nat × FlitRec))
    (st : List (Nat × Snapshot)) (h : (keysOf st).Nodup) :
    (keysOf (trackLoop l tbl st)).Nodup := by
  induction l generalizing tbl st with
  | nil => exact h
  | cons e rest ih => exact ih _ _ (nodup_keysOf_dictSet _ _ _ h)

theorem alookup_trackLoop_not_mem (l : List Ev) (tbl : List (Nat × FlitRec))
    (st : List (Nat × Snapshot)) (t : Nat) (h : ∀ e ∈ l, e.tick ≠ t) :
    alookup t (trackLoop l tbl st) = alookup t st := by
  induction l generalizing tbl st with
  | nil => rfl
  | cons e rest ih =>
    rw [trackLoop, ih _ _ (fun x hx => h x (List.mem_cons_of_mem _ hx)),
      alookup_dictSet_ne _ _ _ _ (h e (List.mem_cons_self _ _))]

/-- For a tick-sorted event list, the state stored under tick `t` is the
partition of the table obtained by applying exactly the events with
tick ≤ t. -/
theorem alookup_trackLoop_of_mem (l : List Ev)
    (hsort : l.Pairwise (fun a b => a.tick ≤ b.tick))
    (tbl : List (Nat × FlitRec)) (st : List (Nat × Snapshot)) (t : Nat)
    (ht : ∃ e ∈ l, e.tick = t) :
    alookup t (trackLoop l tbl st) =
      some (mkSnapshot (applyAll tbl (l.filter (fun e => e.tick ≤ t)))) := by
  induction l generalizing tbl st with
  | nil => simp at ht
  | cons e rest ih =>
    rw [List.pairwise_cons] at hsort
    by_cases hrest : ∃ x ∈ rest, x.tick = t
    · have het : e.tick ≤ t := by
        obtain ⟨x, hx, rfl⟩ := hrest
        exact hsort.1 x hx
      rw [trackLoop, ih hsort.2 _ _ hrest, List.filter_cons,
        if_pos (by simpa using het), applyAll_cons]
    · obtain ⟨x, hx, hxt⟩ := ht
      rcases List.mem_cons.1 hx with rfl | hx2
      · subst hxt
        have hgt : ∀ y ∈ rest, ¬ y.tick ≤ x.tick := by
          intro y hy hc
          have h1 : x.tick ≤ y.tick := hsort.1 y hy
          have : y.tick = x.tick := by omega
          exact hrest ⟨y, hy, this⟩
        rw [trackLoop, alookup_trackLoop_not_mem _ _ _ _
          (fun y hy hc => hrest ⟨y, hy, hc⟩)]
        rw [alookup_dictSet_self]
        rw [List.filter_cons, if_pos (by simp)]
        have hfil : rest.filter (fun e => e.tick ≤ x.tick) = [] := by
          rw [List.filter_eq_nil_iff]
          intro y hy
          simpa using hgt y hy
        rw [hfil, applyAll_cons]
        rfl
      · exact absurd ⟨x, hx2, hxt⟩ hrest

/-- Membership in the built tick-state mapping, concretely: the stored
snapshot is the partition of `tableUpTo`. -/
theorem mem_buildTickStates (evs : List Ev) (t : Nat) (s : Snapshot)
    (h : (t, s) ∈ buildTickStates evs) :
    s = mkSnapshot (tableUpTo evs t) ∧ ∃ e ∈ evs, e.tick = t := by
  have hnd : (keysOf (buildTickStates evs)).Nodup :=
    nodup_keysOf_trackLoop _ _ _ (by simp [keysOf])
  have hlk : alookup t (buildTickStates evs) = some s :=
    alookup_of_mem_nodup _ _ _ h hnd
  have htk : t ∈ keysOf (buildTickStates evs) := mem_keys_of_alookup _ _ _ hlk
  have hex : ∃ e ∈ sortEvents evs, e.tick = t := by
    rcases (mem_keysOf_trackLoop _ _ _ _).1 htk with hc | hc
    · simp [keysOf] at hc
    · exact hc
  have hval := alookup_trackLoop_of_mem (sortEvents evs)
    (pairwise_sortBy Ev.tick evs) [] [] t hex
  rw [buildTickStates] at hlk
  rw [hlk] at hval
  refine ⟨Option.some.inj hval, ?_⟩
  obtain ⟨e, he, het⟩ := hex
  exact ⟨e, (mem_sortBy Ev.tick evs e).1 he, het⟩

theorem nodup_keysOf_tableUpTo (evs : List Ev) (t : Nat) :
    (keysOf (tableUpTo evs t)).Nodup :=
  nodup_keysOf_applyAll _ _ (by simp [keysOf])

/-- After an `SE` for `gid` with no later placing event for `gid`, the
table entry for `gid` is never in a placed state. -/
theorem notPlaced_of_SE (gid : Nat) (a b : List Ev) (se : Ev)
    (hk : se.kind = .SE) (hg : se.global_id = gid)
    (hb : ∀ y ∈ b, ¬(y.global_id = gid ∧ isPlacing y.kind = true)) :
    ∀ rec, alookup gid (applyAll [] (a ++ se :: b)) = some rec →
      rec.loc.isPlaced = false := by
  induction b using List.reverseRecOn with
  | nil =>
    intro rec hrec
    rw [applyAll_append] at hrec
    rw [show applyAll (applyAll [] a) [se] = applyEvent (applyAll [] a) se from rfl] at hrec
    rw [applyEvent, hk, hg, alookup_setLoc_self] at hrec
    cases hcur : alookup gid (applyAll [] a) with
    | none => rw [hcur] at hrec; simp at hrec
    | some rec0 =>
      rw [hcur] at hrec
      obtain rfl := Option.some.inj hrec
      rfl
  | append_singleton b y ihb =>
    intro rec hrec
    rw [show a ++ se :: (b ++ [y]) = (a ++ se :: b) ++ [y] by simp] at hrec
    rw [applyAll_append] at hrec
    rw [show applyAll (applyAll [] (a ++ se :: b)) [y] =
      applyEvent (applyAll [] (a ++ se :: b)) y from rfl] at hrec
    have hbprev : ∀ z ∈ b, ¬(z.global_id = gid ∧ isPlacing z.kind = true) :=
      fun z hz => hb z (List.mem_append_left _ hz)
    have hy : ¬(y.global_id = gid ∧ isPlacing y.kind = true) :=
      hb y (List.mem_append_right _ (List.mem_cons_self _ _))
    by_cases hyg : y.global_id = gid
    · cases hyk : y.kind with
      | RI s d =>
        rw [applyEvent, hyk, hyg] at hrec
        by_cases hmem : gid ∈ keysOf (applyAll [] (a ++ se :: b))
        · rw [alookup_dictSet_self] at hrec
          obtain rfl := Option.some.inj hrec
          rfl
        · rw [alookup_dictSet_self] at hrec
          obtain rfl := Option.some.inj hrec
          rfl
      | SI l => exact absurd ⟨hyg, by rw [hyk]; rfl⟩ hy
      | RR l => exact absurd ⟨hyg, by rw [hyk]; rfl⟩ hy
      | ST l => exact absurd ⟨hyg, by rw [hyk]; rfl⟩ hy
      | DT l => exact absurd ⟨hyg, by rw [hyk]; rfl⟩ hy
      | SE =>
        rw [applyEvent, hyk, hyg, alookup_setLoc_self] at hrec
        cases hcur : alookup gid (applyAll [] (a ++ se :: b)) with
        | none => rw [hcur] at hrec; simp at hrec
        | some rec0 =>
          rw [hcur] at hrec
          obtain rfl := Option.some.inj hrec
          rfl
    · rw [alookup_applyEvent_ne _ _ _ hyg] at hrec
      exact ihb hbprev rec hrec

/-! ### Lemmas: decoder framing -/

theorem decodeEvents_nil (P : List Nat → Option Ev) : decodeEvents P [] = ([], .ok) := by
  rw [decodeEvents.eq_def]
  simp

theorem decodeEvents_short (P : List Nat → Option Ev) (bytes : List Nat)
    (h1 : bytes ≠ []) (h2 : bytes.length < 4) : decodeEvents P bytes = ([], .lenErr) := by
  rw [decodeEvents.eq_def]
  rw [if_neg h1, if_pos h2]

theorem leU32_seven : leU32 [7, 0, 0, 0] = 7 := by norm_num [leU32]

/-- Decoding one well-framed record followed by an arbitrary remainder. -/
theorem decodeEvents_step (P : List Nat → Option Ev) (payload suffix : List Nat)
    (hlen : payload.length = 7) :
    decodeEvents P (([7, 0, 0, 0] ++ payload) ++ suffix) =
      match P payload with
      | none => decodeEvents P suffix
      | some e => (e :: (decodeEvents P suffix).1, (decodeEvents P suffix).2) := by
  have hbytes : ([7, 0, 0, 0] ++ payload) ++ suffix = [7, 0, 0, 0] ++ (payload ++ suffix) := by
    simp
  rw [decodeEvents.eq_def, hbytes]
  have hne : ¬ ([7, 0, 0, 0] ++ (payload ++ suffix) = []) := by simp
  have hlt : ¬ (([7, 0, 0, 0] ++ (payload ++ suffix)).length < 4) := by
    simp
  rw [if_neg hne, if_neg hlt]
  have htake : ([7, 0, 0, 0] ++ (payload ++ suffix)).take 4 = [7, 0, 0, 0] := by
    rw [show (4 : Nat) = ([7, 0, 0, 0] : List Nat).length from rfl, List.take_left]
  have hdrop : ([7, 0, 0, 0] ++ (payload ++ suffix)).drop 4 = payload ++ suffix := by
    rw [show (4 : Nat) = ([7, 0, 0, 0] : List Nat).length from rfl, List.drop_left]
  simp only [htake, hdrop, leU32_seven]
  have hbody : (payload ++ suffix).take 7 = payload := by
    rw [← hlen, List.take_left]
  have hrest : (payload ++ suffix).drop 7 = suffix := by
    rw [← hlen, List.drop_left]
  simp only [hbody, hrest, hlen]
  rw [if_neg (by simp)]

/-- Decoding a record whose payload was cut short, with nothing after it. -/
theorem decodeEvents_truncStep (P : List Nat → Option Ev) (partial0 : List Nat)
    (hlen : partial0.length < 7) :
    decodeEvents P ([7, 0, 0, 0] ++ partial0) = ([], .truncated) := by
  rw [decodeEvents.eq_def]
  have hne : ¬ ([7, 0, 0, 0] ++ partial0 = []) := by simp
  have hlt : ¬ (([7, 0, 0, 0] ++ partial0).length < 4) := by simp
  rw [if_neg hne, if_neg hlt]
  have htake : ([7, 0, 0, 0] ++ partial0).take 4 = [7, 0, 0, 0] := by
    rw [show (4 : Nat) = ([7, 0, 0, 0] : List Nat).length from rfl, List.take_left]
  have hdrop : ([7, 0, 0, 0] ++ partial0).drop 4 = partial0 := by
    rw [show (4 : Nat) = ([7, 0, 0, 0] : List Nat).length from rfl, List.drop_left]
  simp only [htake, hdrop, leU32_seven]
  have hbody : partial0.take 7 = partial0 := List.take_of_length_le (Nat.le_of_lt hlen)
  rw [if_pos (by rw [hbody]; omega)]

theorem payloadOf_length (e : Ev) : (payloadOf e).length = 7 := rfl

theorem parse_payloadOf (e : Ev) : parseGarnetEvent (payloadOf e) = some e := by
  obtain ⟨t, g, p, f, k⟩ := e
  cases k <;> rfl

/-- A valid prefix of frames decodes to exactly its events; the remainder
of the stream is decoded independently after it. -/
theorem decode_encodeAll_append (evs : List Ev) (suffix : List Nat) :
    decodeEvents parseGarnetEvent (encodeAll evs ++ suffix) =
      (evs ++ (decodeEvents parseGarnetEvent suffix).1,
        (decodeEvents parseGarnetEvent suffix).2) := by
  induction evs with
  | nil => simp [encodeAll]
  | cons e rest ih =>
    have hshape : encodeAll (e :: rest) ++ suffix =
        ([7, 0, 0, 0] ++ payloadOf e) ++ (encodeAll rest ++ suffix) := by
      simp [encodeAll, frameBytes]
    rw [hshape, decodeEvents_step _ _ _ (payloadOf_length e), parse_payloadOf, ih]
    simp

theorem parse_log_of_ok (P : List Nat → Option Ev) (bytes : List Nat) (evs : List Ev)
    (h : decodeEvents P bytes = (evs, .ok)) : parse_log P bytes = buildTickStates evs := by
  rw [parse_log, h]

theorem parse_log_of_truncated (P : List Nat → Option Ev) (bytes : List Nat) (evs : List Ev)
    (h : decodeEvents P bytes = (evs, .truncated)) :
    parse_log P bytes = buildTickStates evs := by
  rw [parse_log, h]

theorem parse_log_of_lenErr (P : List Nat → Option Ev) (bytes : List Nat) (evs : List Ev)
    (h : decodeEvents P bytes = (evs, .lenErr)) : parse_log P bytes = [] := by
  rw [parse_log, h]

/-! ### Lemmas: mesh topology -/

theorem filterMap_if_of_forall {α : Type} (l : List Nat) (P : Nat → Prop) [DecidablePred P]
    (g : Nat → α) (h : ∀ c ∈ l, P c) :
    l.filterMap (fun c => if P c then some (g c) else none) = l.map g := by
  induction l with
  | nil => rfl
  | cons x xs ih =>
    rw [List.filterMap_cons, List.map_cons]
    rw [if_pos (h x (List.mem_cons_self _ _))]
    rw [ih (fun c hc => h c (List.mem_cons_of_mem _ hc))]

theorem filterMap_range_if {α : Type} (n : Nat) (g : Nat → α) :
    (List.range n).filterMap (fun c => if c + 1 < n then some (g c) else none) =
      (List.range (n - 1)).map g := by
  cases n with
  | zero => rfl
  | succ m =>
    rw [List.range_succ, List.filterMap_append]
    rw [filterMap_if_of_forall (List.range m) (fun c => c + 1 < m + 1) g
      (fun c hc => by have := List.mem_range.1 hc; omega)]
    have h2 : List.filterMap (fun c => if c + 1 < m + 1 then some (g c) else none) [m] = [] := by
      simp
    rw [h2, List.append_nil]
    simp

theorem flatMap_length_const {α : Type} (g : Nat → List α) (k N : Nat)
    (hg : ∀ i, (g i).length = k) : ((List.range N).flatMap g).length = N * k := by
  induction N with
  | zero => simp
  | succ m ih =>
    rw [List.range_succ, List.flatMap_append, List.length_append, ih]
    have : List.flatMap [m] g = g m := by simp
    rw [this, hg m]
    ring

theorem flatMap_getElem_const {α : Type} (g : Nat → List α) (k N j : Nat)
    (hg : ∀ i, (g i).length = k) (hj : j < N * k) :
    ((List.range N).flatMap g)[j]? = (g (j / k))[j % k]? := by
  induction N with
  | zero => omega
  | succ m ih =>
    rw [List.range_succ, List.flatMap_append]
    have hlen : ((List.range m).flatMap g).length = m * k := flatMap_length_const g k m hg
    by_cases hjm : j < m * k
    · rw [List.getElem?_append_left (by rw [hlen]; exact hjm)]
      exact ih hjm
    · have hge : m * k ≤ j := Nat.le_of_not_lt hjm
      rw [List.getElem?_append_right (by rw [hlen]; exact hge), hlen]
      have hflat : List.flatMap [m] g = g m := by simp
      rw [hflat]
      have hsm : (m + 1) * k = m * k + k := by ring
      have hk : 0 < k := by omega
      have hr : j - m * k < k := by omega
      have hjeq : j = k * m + (j - m * k) := by
        rw [Nat.mul_comm]
        omega
      have hdiv : j / k = m := by
        rw [hjeq, Nat.mul_add_div hk, Nat.div_eq_of_lt hr]
        omega
      have hmod : j % k = j - m * k := by
        conv_lhs => rw [hjeq]
        rw [Nat.mul_add_mod]
        exact Nat.mod_eq_of_lt hr
      rw [hdiv, hmod]

/-- Grid coordinates of the router id `col + row * n`. -/
theorem coord_div (n row col : Nat) (hcol : col < n) : (col + row * n) / n = row := by
  have hn : 0 < n := by omega
  rw [Nat.mul_comm row n, Nat.add_mul_div_left col row hn, Nat.div_eq_of_lt hcol]
  omega

theorem coord_mod (n row col : Nat) (hcol : col < n) : (col + row * n) % n = col := by
  rw [Nat.add_mul_mod_self_right, Nat.mod_eq_of_lt hcol]

/-- The link pair at block index `j` of the east block (and, swapped, of
the west block). -/
def ePair (n j : Nat) : Nat × Nat :=
  (j % (n - 1) + (j / (n - 1)) * n, (j % (n - 1) + 1) + (j / (n - 1)) * n)

/-- The link pair at block index `j` of the north block (and, swapped, of
the south block). -/
def nPair (n j : Nat) : Nat × Nat :=
  (j / (n - 1) + (j % (n - 1)) * n, j / (n - 1) + (j % (n - 1) + 1) * n)

theorem eastLinks_eq (n : Nat) :
    eastLinks n = (List.range n).flatMap
      (fun row => (List.range (n - 1)).map (fun col => (col + row * n, (col + 1) + row * n))) := by
  unfold eastLinks
  congr 1
  funext row
  exact filterMap_range_if n _

theorem westLinks_eq (n : Nat) :
    westLinks n = (List.range n).flatMap
      (fun row => (List.range (n - 1)).map (fun col => ((col + 1) + row * n, col + row * n))) := by
  unfold westLinks
  congr 1
  funext row
  exact filterMap_range_if n _

theorem northLinks_eq (n : Nat) :
    northLinks n = (List.range n).flatMap
      (fun col => (List.range (n - 1)).map (fun row => (col + row * n, col + (row + 1) * n))) := by
  unfold northLinks
  congr 1
  funext col
  exact filterMap_range_if n _

theorem southLinks_eq (n : Nat) :
    southLinks n = (List.range n).flatMap
      (fun col => (List.range (n - 1)).map (fun row => (col + (row + 1) * n, col + row * n))) := by
  unfold southLinks
  congr 1
  funext col
  exact filterMap_range_if n _

theorem eastLinks_length (n : Nat) : (eastLinks n).length = n * (n - 1) := by
  rw [eastLinks_eq]
  exact flatMap_length_const _ _ _ (fun i => by simp)

theorem westLinks_length (n : Nat) : (westLinks n).length = n * (n - 1) := by
  rw [westLinks_eq]
  exact flatMap_length_const _ _ _ (fun i => by simp)

theorem northLinks_length (n : Nat) : (northLinks n).length = n * (n - 1) := by
  rw [northLinks_eq]
  exact flatMap_length_const _ _ _ (fun i => by simp)

theorem southLinks_length (n : Nat) : (southLinks n).length = n * (n - 1) := by
  rw [southLinks_eq]
  exact flatMap_length_const _ _ _ (fun i => by simp)

theorem sub_one_pos_of_lt_mul (n j : Nat) (hj : j < n * (n - 1)) : 0 < n - 1 := by
  rcases Nat.eq_zero_or_pos (n - 1) with h0 | h
  · rw [h0, Nat.mul_zero] at hj
    omega
  · exact h

theorem eastLinks_getElem (n j : Nat) (hj : j < n * (n - 1)) :
    (eastLinks n)[j]? = some (ePair n j) := by
  have hpos := sub_one_pos_of_lt_mul n j hj
  rw [eastLinks_eq, flatMap_getElem_const _ (n - 1) n j (fun i => by simp) hj]
  rw [List.getElem?_map, List.getElem?_range (Nat.mod_lt j hpos)]
  rfl

theorem westLinks_getElem (n j : Nat) (hj : j < n * (n - 1)) :
    (westLinks n)[j]? = some ((ePair n j).2, (ePair n j).1) := by
  have hpos := sub_one_pos_of_lt_mul n j hj
  rw [westLinks_eq, flatMap_getElem_const _ (n - 1) n j (fun i => by simp) hj]
  rw [List.getElem?_map, List.getElem?_range (Nat.mod_lt j hpos)]
  rfl

theorem northLinks_getElem (n j : Nat) (hj : j < n * (n - 1)) :
    (northLinks n)[j]? = some (nPair n j) := by
  have hpos := sub_one_pos_of_lt_mul n j hj
  rw [northLinks_eq, flatMap_getElem_const _ (n - 1) n j (fun i => by simp) hj]
  rw [List.getElem?_map, List.getElem?_range (Nat.mod_lt j hpos)]
  rfl

theorem southLinks_getElem (n j : Nat) (hj : j < n * (n - 1)) :
    (southLinks n)[j]? = some ((nPair n j).2, (nPair n j).1) := by
  have hpos := sub_one_pos_of_lt_mul n j hj
  rw [southLinks_eq, flatMap_getElem_const _ (n - 1) n j (fun i => by simp) hj]
  rw [List.getElem?_map, List.getElem?_range (Nat.mod_lt j hpos)]
  rfl

theorem links_def (n : Nat) :
    (build_mesh_xy n).2 = eastLinks n ++ (westLinks n ++ (northLinks n ++ southLinks n)) := by
  show eastLinks n ++ westLinks n ++ northLinks n ++ southLinks n = _
  simp [List.append_assoc]

theorem links_length (n : Nat) : (build_mesh_xy n).2.length = 4 * (n * (n - 1)) := by
  rw [links_def]
  simp only [List.length_append, eastLinks_length, westLinks_length, northLinks_length,
    southLinks_length]
  ring

theorem links_getElem_east (n j : Nat) (hj : j < n * (n - 1)) :
    (build_mesh_xy n).2[j]? = some (ePair n j) := by
  rw [links_def]
  rw [List.getElem?_append_left (by rw [eastLinks_length]; exact hj)]
  exact eastLinks_getElem n j hj

theorem links_getElem_west (n j : Nat) (hj : j < n * (n - 1)) :
    (build_mesh_xy n).2[n * (n - 1) + j]? = some ((ePair n j).2, (ePair n j).1) := by
  rw [links_def]
  rw [List.getElem?_append_right (by rw [eastLinks_length]; omega), eastLinks_length]
  rw [show n * (n - 1) + j - n * (n - 1) = j by omega]
  rw [List.getElem?_append_left (by rw [westLinks_length]; exact hj)]
  exact westLinks_getElem n j hj

theorem links_getElem_north (n j : Nat) (hj : j < n * (n - 1)) :
    (build_mesh_xy n).2[2 * (n * (n - 1)) + j]? = some (nPair n j) := by
  rw [links_def]
  rw [List.getElem?_append_right (by rw [eastLinks_length]; omega), eastLinks_length]
  rw [List.getElem?_append_right (by rw [westLinks_length]; omega), westLinks_length]
  rw [show 2 * (n * (n - 1)) + j - n * (n - 1) - n * (n - 1) = j by omega]
  rw [List.getElem?_append_left (by rw [northLinks_length]; exact hj)]
  exact northLinks_getElem n j hj

theorem links_getElem_south (n j : Nat) (hj : j < n * (n - 1)) :
    (build_mesh_xy n).2[3 * (n * (n - 1)) + j]? = some ((nPair n j).2, (nPair n j).1) := by
  rw [links_def]
  rw [List.getElem?_append_right (by rw [eastLinks_length]; omega), eastLinks_length]
  rw [List.getElem?_append_right (by rw [westLinks_length]; omega), westLinks_length]
  rw [List.getElem?_append_right (by rw [northLinks_length]; omega), northLinks_length]
  rw [show 3 * (n * (n - 1)) + j - n * (n - 1) - n * (n - 1) - n * (n - 1) = j by omega]
  exact southLinks_getElem n j hj

theorem mem_eastLinks (n : Nat) (pr : Nat × Nat) :
    pr ∈ eastLinks n ↔
      ∃ row, row < n ∧ ∃ col, col + 1 < n ∧ pr = (col + row * n, (col + 1) + row * n) := by
  simp only [eastLinks, List.mem_flatMap, List.mem_filterMap, List.mem_range,
    Option.ite_none_right_eq_some, Option.some.injEq]
  constructor
  · rintro ⟨row, hrow, col, hcol, hc, rfl⟩
    exact ⟨row, hrow, col, hc, rfl⟩
  · rintro ⟨row, hrow, col, hc, rfl⟩
    exact ⟨row, hrow, col, by omega, hc, rfl⟩

theorem mem_westLinks (n : Nat) (pr : Nat × Nat) :
    pr ∈ westLinks n ↔
      ∃ row, row < n ∧ ∃ col, col + 1 < n ∧ pr = ((col + 1) + row * n, col + row * n) := by
  simp only [westLinks, List.mem_flatMap, List.mem_filterMap, List.mem_range,
    Option.ite_none_right_eq_some, Option.some.injEq]
  constructor
  · rintro ⟨row, hrow, col, hcol, hc, rfl⟩
    exact ⟨row, hrow, col, hc, rfl⟩
  · rintro ⟨row, hrow, col, hc, rfl⟩
    exact ⟨row, hrow, col, by omega, hc, rfl⟩

theorem mem_northLinks (n : Nat) (pr : Nat × Nat) :
    pr ∈ northLinks n ↔
      ∃ col, col < n ∧ ∃ row, row + 1 < n ∧ pr = (col + row * n, col + (row + 1) * n) := by
  simp only [northLinks, List.mem_flatMap, List.mem_filterMap, List.mem_range,
    Option.ite_none_right_eq_some, Option.some.injEq]
  constructor
  · rintro ⟨col, hcol, row, hrow, hc, rfl⟩
    exact ⟨col, hcol, row, hc, rfl⟩
  · rintro ⟨col, hcol, row, hc, rfl⟩
    exact ⟨col, hcol, row, by omega, hc, rfl⟩

theorem mem_southLinks (n : Nat) (pr : Nat × Nat) :
    pr ∈ southLinks n ↔
      ∃ col, col < n ∧ ∃ row, row + 1 < n ∧ pr = (col + (row + 1) * n, col + row * n) := by
  simp only [southLinks, List.mem_flatMap, List.mem_filterMap, List.mem_range,
    Option.ite_none_right_eq_some, Option.some.injEq]
  constructor
  · rintro ⟨col, hcol, row, hrow, hc, rfl⟩
    exact ⟨col, hcol, row, hc, rfl⟩
  · rintro ⟨col, hcol, row, hc, rfl⟩
    exact ⟨col, hcol, row, by omega, hc, rfl⟩

/-- Every generated link joins grid-adjacent routers. -/
theorem adjStep_of_mem_links (n : Nat) (pr : Nat × Nat)
    (h : pr ∈ (build_mesh_xy n).2) : adjStep n pr := by
  have hmem : pr ∈ eastLinks n ∨ pr ∈ westLinks n ∨ pr ∈ northLinks n ∨ pr ∈ southLinks n := by
    rw [links_def] at h
    simpa [List.mem_append] using h
  rcases hmem with he | hw | hn | hs
  · rcases (mem_eastLinks n pr).1 he with ⟨row, hrow, col, hc, rfl⟩
    left
    refine ⟨?_, Or.inl ?_⟩
    · rw [coord_div n row col (by omega), coord_div n row (col + 1) hc]
    · rw [coord_mod n row col (by omega), coord_mod n row (col + 1) hc]
  · rcases (mem_westLinks n pr).1 hw with ⟨row, hrow, col, hc, rfl⟩
    left
    refine ⟨?_, Or.inr ?_⟩
    · rw [coord_div n row col (by omega), coord_div n row (col + 1) hc]
    · rw [coord_mod n row col (by omega), coord_mod n row (col + 1) hc]
  · rcases (mem_northLinks n pr).1 hn with ⟨col, hcol, row, hr, rfl⟩
    right
    refine ⟨?_, Or.inl ?_⟩
    · rw [coord_mod n row col hcol, coord_mod n (row + 1) col hcol]
    · rw [coord_div n row col hcol, coord_div n (row + 1) col hcol]
  · rcases (mem_southLinks n pr).1 hs with ⟨col, hcol, row, hr, rfl⟩
    right
    refine ⟨?_, Or.inr ?_⟩
    · rw [coord_mod n (row + 1) col hcol, coord_mod n row col hcol]
    · rw [coord_div n row col hcol, coord_div n (row + 1) col hcol]

/-! ### Lemmas: frame sampler -/

theorem mem_of_getLast? {α : Type} (l : List α) (x : α) (h : l.getLast? = some x) : x ∈ l := by
  rw [List.getLast?_eq_some_iff] at h
  obtain ⟨ys, rfl⟩ := h
  simp

theorem getLast?_of_ne_nil {α : Type} (l : List α) (h : l ≠ []) : ∃ x, l.getLast? = some x := by
  cases hc : l.getLast? with
  | none => exact absurd (List.getLast?_eq_none_iff.1 hc) h
  | some x => exact ⟨x, rfl⟩

theorem le_getLast_of_sorted (l : List Nat) (hs : l.Pairwise (· ≤ ·)) (x m : Nat)
    (hx : x ∈ l) (hm : l.getLast? = some m) : x ≤ m := by
  rw [List.getLast?_eq_some_iff] at hm
  obtain ⟨ys, rfl⟩ := hm
  rcases List.mem_append.1 hx with hy | hy
  · exact (List.pairwise_append.1 hs).2.2 x hy m (by simp)
  · simp at hy
    omega

/-- The sorted key list used by `make_animation`. -/
def sortedTicks (snaps : List (Nat × Snapshot)) : List Nat :=
  sortBy (fun t => t) (keysOf snaps)

/-- `max_tick = ticks_all[-1]` (line 235). -/
def maxTickOf (snaps : List (Nat × Snapshot)) : Nat :=
  (sortedTicks snaps).getLastD 0

theorem mem_sortedTicks (snaps : List (Nat × Snapshot)) (t : Nat) :
    t ∈ sortedTicks snaps ↔ t ∈ keysOf snaps := mem_sortBy _ _ _

theorem pairwise_sortedTicks (snaps : List (Nat × Snapshot)) :
    (sortedTicks snaps).Pairwise (· ≤ ·) := pairwise_sortBy _ _

/-- When no eventful tick precedes the sample point the frame is empty. -/
theorem frameSnap_empty (snaps : List (Nat × Snapshot)) (t : Nat)
    (h : ∀ tk ∈ keysOf snaps, ¬ tk ≤ t) :
    frameSnap snaps (sortedTicks snaps) t = emptySnap := by
  rw [frameSnap]
  have hfil : (sortedTicks snaps).filter (fun tk => tk ≤ t) = [] := by
    rw [List.filter_eq_nil_iff]
    intro tk htk
    simpa using h tk ((mem_sortedTicks snaps tk).1 htk)
  rw [hfil]
  rfl

/-- When some eventful tick precedes the sample point, the frame is the
snapshot stored under the largest such tick. -/
theorem frameSnap_lookup (snaps : List (Nat × Snapshot)) (t tk0 : Nat)
    (h0 : tk0 ∈ keysOf snaps) (hle : tk0 ≤ t) :
    ∃ mx s, mx ∈ keysOf snaps ∧ mx ≤ t ∧
      (∀ tk ∈ keysOf snaps, tk ≤ t → tk ≤ mx) ∧
      alookup mx snaps = some s ∧ frameSnap snaps (sortedTicks snaps) t = s := by
  have hmem0 : tk0 ∈ (sortedTicks snaps).filter (fun tk => tk ≤ t) :=
    List.mem_filter.2 ⟨(mem_sortedTicks snaps tk0).2 h0, by simpa using hle⟩
  have hne : (sortedTicks snaps).filter (fun tk => tk ≤ t) ≠ [] := by
    intro hc
    rw [hc] at hmem0
    simp at hmem0
  obtain ⟨mx, hmx⟩ := getLast?_of_ne_nil _ hne
  have hsorted : ((sortedTicks snaps).filter (fun tk => tk ≤ t)).Pairwise (· ≤ ·) :=
    (pairwise_sortedTicks snaps).filter _
  have hmxmem : mx ∈ (sortedTicks snaps).filter (fun tk => tk ≤ t) := mem_of_getLast? _ _ hmx
  have hmxkeys : mx ∈ keysOf snaps :=
    (mem_sortedTicks snaps mx).1 (List.mem_filter.1 hmxmem).1
  have hmxle : mx ≤ t := by simpa using (List.mem_filter.1 hmxmem).2
  obtain ⟨s, hs⟩ := alookup_isSome_of_mem_keys snaps mx hmxkeys
  refine ⟨mx, s, hmxkeys, hmxle, ?_, hs, ?_⟩
  · intro tk htk htkle
    exact le_getLast_of_sorted _ hsorted tk mx
      (List.mem_filter.2 ⟨(mem_sortedTicks snaps tk).2 htk, by simpa using htkle⟩) hmx
  · rw [frameSnap, hmx]
    simp [hs]

theorem make_frames_some (snaps : List (Nat × Snapshot)) (interval : Nat)
    (h : snaps ≠ []) :
    make_frames snaps interval =
      some ((tickSamples (maxTickOf snaps) interval).map
        (fun t => (t, frameSnap snaps (sortedTicks snaps) t))) := by
  rw [make_frames]
  cases hs : sortBy (fun t => t) (keysOf snaps) with
  | nil =>
    exfalso
    have hlen := length_sortBy (fun t : Nat => t) (keysOf snaps)
    rw [hs] at hlen
    cases snaps with
    | nil => exact h rfl
    | cons p rest => simp [keysOf] at hlen
  | cons t0 ts =>
    have hdef : sortedTicks snaps = t0 :: ts := by rw [sortedTicks, hs]
    rw [show maxTickOf snaps = (t0 :: ts).getLastD 0 by rw [maxTickOf, hdef], hdef]

theorem maxTickOf_spec (snaps : List (Nat × Snapshot)) (h : snaps ≠ []) :
    maxTickOf snaps ∈ keysOf snaps ∧ ∀ tk ∈ keysOf snaps, tk ≤ maxTickOf snaps := by
  have hne : sortedTicks snaps ≠ [] := by
    intro hc
    have hlen := length_sortBy (fun t : Nat => t) (keysOf snaps)
    rw [show sortBy (fun t : Nat => t) (keysOf snaps) = sortedTicks snaps from rfl, hc] at hlen
    cases snaps with
    | nil => exact h rfl
    | cons p rest => simp [keysOf] at hlen
  obtain ⟨mx, hmx⟩ := getLast?_of_ne_nil _ hne
  have hval : maxTickOf snaps = mx := by
    rw [maxTickOf, List.getLastD_eq_getLast?, hmx]
    rfl
  rw [hval]
  constructor
  · exact (mem_sortedTicks snaps mx).1 (mem_of_getLast? _ _ hmx)
  · intro tk htk
    exact le_getLast_of_sorted _ (pairwise_sortedTicks snaps) tk mx
      ((mem_sortedTicks snaps tk).2 htk) hmx

theorem mem_tickSamples (maxT interval t : Nat) (hi : 0 < interval) :
    t ∈ tickSamples maxT interval ↔ ∃ k, t = k * interval ∧ t ≤ maxT := by
  simp only [tickSamples, List.mem_map, List.mem_range]
  constructor
  · rintro ⟨k, hk, rfl⟩
    refine ⟨k, rfl, ?_⟩
    have hkle : k ≤ maxT / interval := by omega
    exact (Nat.le_div_iff_mul_le hi).1 hkle
  · rintro ⟨k, rfl, hle⟩
    exact ⟨k, by have := (Nat.le_div_iff_mul_le hi).2 hle; omega, rfl⟩

theorem pairwise_tickSamples (maxT interval : Nat) (hi : 0 < interval) :
    (tickSamples maxT interval).Pairwise (· < ·) := by
  rw [tickSamples, List.pairwise_map]
  exact (List.pairwise_lt_range _).imp (fun h => (Nat.mul_lt_mul_right hi).2 h)

theorem presentIn_emptySnap (gid : Nat) : ¬ presentIn gid emptySnap := by
  rintro (⟨r, info, hmem, _⟩ | ⟨l, info, hmem, _⟩) <;>
    simp [emptySnap, snapGet, alookup] at hmem

/-! ### Concrete inputs used by the claims -/

/-- The end-to-end scenario of the spec (§8): inject, receive at router 0,
start on link 5, receive at router 1, eject. -/
def evs3 : List Ev :=
  [⟨0, 1, 0, 0, .RI 0 3⟩, ⟨0, 1, 0, 0, .RR 0⟩, ⟨10, 1, 0, 0, .ST 5⟩,
   ⟨20, 1, 0, 0, .RR 1⟩, ⟨30, 1, 0, 0, .SE⟩]

/-- The summary of flit 1 as it appears in the snapshots of `evs3`. -/
def info1 : FlitInfo := ⟨1, 0, 3, 0, 0⟩

/-! ### Claims -/

/-- C1: the tracker (the sorting-and-tracking section of `parse_log`)
emits exactly one snapshot per distinct tick occurring in the events and
none for any other tick; the snapshot stored under tick `t` is the
router/link partition of the per-flit location table after applying
every event with tick ≤ t; events are applied in non-decreasing tick
order, and equal-tick events keep their original stream order (the sort
is stable: it preserves each equal-tick fibre of the input). -/
theorem claim_C1 (evs : List Ev) :
    (keysOf (buildTickStates evs)).Nodup
    ∧ (∀ t : Nat, t ∈ keysOf (buildTickStates evs) ↔ ∃ e ∈ evs, e.tick = t)
    ∧ (∀ t ∈ keysOf (buildTickStates evs),
        alookup t (buildTickStates evs) =
          some (mkSnapshot (applyAll [] ((sortEvents evs).filter (fun e => e.tick ≤ t)))))
    ∧ (sortEvents evs).Pairwise (fun a b => a.tick ≤ b.tick)
    ∧ (∀ t : Nat, (sortEvents evs).filter (fun e => e.tick = t) =
        evs.filter (fun e => e.tick = t)) := by
  have hmemiff : ∀ t : Nat, t ∈ keysOf (buildTickStates evs) ↔ ∃ e ∈ evs, e.tick = t := by
    intro t
    rw [buildTickStates, mem_keysOf_trackLoop]
    constructor
    · rintro (hc | ⟨e, he, het⟩)
      · simp [keysOf] at hc
      · exact ⟨e, (mem_sortBy Ev.tick evs e).1 he, het⟩
    · rintro ⟨e, he, het⟩
      exact Or.inr ⟨e, (mem_sortBy Ev.tick evs e).2 he, het⟩
  refine ⟨nodup_keysOf_trackLoop _ _ _ (by simp [keysOf]), hmemiff, ?_, pairwise_sortBy _ _,
    fun t => filter_sortBy_eq Ev.tick t evs⟩
  intro t ht
  rcases (hmemiff t).1 ht with ⟨e, he, het⟩
  exact alookup_trackLoop_of_mem (sortEvents evs) (pairwise_sortBy Ev.tick evs) [] [] t
    ⟨e, (mem_sortBy Ev.tick evs e).2 he, het⟩

/-- Witness for C1 at a concrete event list. -/
theorem claim_C1_witness :
    (keysOf (buildTickStates evs3)).Nodup
    ∧ (∀ t : Nat, t ∈ keysOf (buildTickStates evs3) ↔ ∃ e ∈ evs3, e.tick = t)
    ∧ (∀ t ∈ keysOf (buildTickStates evs3),
        alookup t (buildTickStates evs3) =
          some (mkSnapshot (applyAll [] ((sortEvents evs3).filter (fun e => e.tick ≤ t)))))
    ∧ (sortEvents evs3).Pairwise (fun a b => a.tick ≤ b.tick)
    ∧ (∀ t : Nat, (sortEvents evs3).filter (fun e => e.tick = t) =
        evs3.filter (fun e => e.tick = t)) :=
  claim_C1 evs3

/-- C3: the end-to-end scenario.  The input log `evs3` produces
snapshots at exactly the ticks 0, 10, 20, 30, in which flow 1 is at
router 0 at tick 0, on link 5 at tick 10, at router 1 at tick 20 and in
no location set at tick 30 (the tick-30 snapshot is the empty
partition, and nothing is present in an empty partition); sampling this
snapshot mapping at interval 10 yields exactly four frames at ticks
0, 10, 20, 30, each equal to the corresponding snapshot. -/
theorem claim_C3 :
    buildTickStates evs3 =
      [(0, ⟨[(0, [info1])], []⟩), (10, ⟨[], [(5, [info1])]⟩),
       (20, ⟨[(1, [info1])], []⟩), (30, ⟨[], []⟩)]
    ∧ make_frames (buildTickStates evs3) 10 =
      some [(0, ⟨[(0, [info1])], []⟩), (10, ⟨[], [(5, [info1])]⟩),
        (20, ⟨[(1, [info1])], []⟩), (30, ⟨[], []⟩)]
    ∧ appearsIn 1 (snapGet (⟨[(0, [info1])], []⟩ : Snapshot).routers 0)
    ∧ appearsIn 1 (snapGet (⟨[], [(5, [info1])]⟩ : Snapshot).links 5)
    ∧ appearsIn 1 (snapGet (⟨[(1, [info1])], []⟩ : Snapshot).routers 1)
    ∧ (∀ gid : Nat, ¬ presentIn gid (⟨[], []⟩ : Snapshot)) := by
  refine ⟨by decide, by decide, by decide, by decide, by decide, ?_⟩
  intro gid
  exact presentIn_emptySnap gid

/-- C5: in every snapshot the tracker stores, a flit occurs in at most
one location set — never in two router sets, never in two link sets,
never in a router set and a link set at once — and a flit whose current
table state is `ejected` occurs in no set of that snapshot. -/
theorem claim_C5 (evs : List Ev) (t : Nat) (s : Snapshot) (gid : Nat)
    (h : (t, s) ∈ buildTickStates evs) :
    (∀ r1 r2, appearsIn gid (snapGet s.routers r1) → appearsIn gid (snapGet s.routers r2) →
      r1 = r2)
    ∧ (∀ l1 l2, appearsIn gid (snapGet s.links l1) → appearsIn gid (snapGet s.links l2) →
      l1 = l2)
    ∧ ¬((∃ r, appearsIn gid (snapGet s.routers r)) ∧ (∃ l, appearsIn gid (snapGet s.links l)))
    ∧ (∀ rec, alookup gid (tableUpTo evs t) = some rec → rec.loc = .ejected →
        ¬ presentIn gid s) := by
  obtain ⟨hs, -⟩ := mem_buildTickStates evs t s h
  subst hs
  have hnd := nodup_keysOf_tableUpTo evs t
  refine ⟨?_, ?_, ?_, ?_⟩
  · intro r1 r2 h1 h2
    rcases (appearsIn_mkSnapshot_routers _ _ _ hnd).1 h1 with ⟨rec1, hl1, hloc1⟩
    rcases (appearsIn_mkSnapshot_routers _ _ _ hnd).1 h2 with ⟨rec2, hl2, hloc2⟩
    have : rec1 = rec2 := Option.some.inj (hl1.symm.trans hl2)
    subst this
    rw [hloc1] at hloc2
    exact FlitLoc.atRouter.inj hloc2
  · intro l1 l2 h1 h2
    rcases (appearsIn_mkSnapshot_links _ _ _ hnd).1 h1 with ⟨rec1, hl1, hloc1⟩
    rcases (appearsIn_mkSnapshot_links _ _ _ hnd).1 h2 with ⟨rec2, hl2, hloc2⟩
    have : rec1 = rec2 := Option.some.inj (hl1.symm.trans hl2)
    subst this
    rw [hloc1] at hloc2
    exact FlitLoc.onLink.inj hloc2
  · rintro ⟨⟨r, hr⟩, ⟨l, hl⟩⟩
    rcases (appearsIn_mkSnapshot_routers _ _ _ hnd).1 hr with ⟨rec1, hl1, hloc1⟩
    rcases (appearsIn_mkSnapshot_links _ _ _ hnd).1 hl with ⟨rec2, hl2, hloc2⟩
    have : rec1 = rec2 := Option.some.inj (hl1.symm.trans hl2)
    subst this
    rw [hloc1] at hloc2
    exact absurd hloc2 (by simp)
  · intro rec hrec hej hpres
    rcases (presentIn_mkSnapshot _ _ hnd).1 hpres with ⟨rec2, hl2, hpl2⟩
    have : rec = rec2 := Option.some.inj (hrec.symm.trans hl2)
    subst this
    rw [hej] at hpl2
    exact absurd hpl2 (by simp [FlitLoc.isPlaced])

/-- Witness for C5 at the tick-0 snapshot of the end-to-end scenario. -/
theorem claim_C5_witness :
    ((0, (⟨[(0, [info1])], []⟩ : Snapshot)) ∈ buildTickStates evs3)
    ∧ ((∀ r1 r2,
        appearsIn 1 (snapGet (⟨[(0, [info1])], []⟩ : Snapshot).routers r1) →
        appearsIn 1 (snapGet (⟨[(0, [info1])], []⟩ : Snapshot).routers r2) → r1 = r2)
      ∧ (∀ l1 l2,
        appearsIn 1 (snapGet (⟨[(0, [info1])], []⟩ : Snapshot).links l1) →
        appearsIn 1 (snapGet (⟨[(0, [info1])], []⟩ : Snapshot).links l2) → l1 = l2)
      ∧ ¬((∃ r, appearsIn 1 (snapGet (⟨[(0, [info1])], []⟩ : Snapshot).routers r))
          ∧ (∃ l, appearsIn 1 (snapGet (⟨[(0, [info1])], []⟩ : Snapshot).links l)))
      ∧ (∀ rec, alookup 1 (tableUpTo evs3 0) = some rec → rec.loc = .ejected →
          ¬ presentIn 1 (⟨[(0, [info1])], []⟩ : Snapshot))) :=
  ⟨by decide, claim_C5 evs3 0 _ 1 (by decide)⟩

/-- C2: for every non-empty snapshot mapping and positive interval the
sampler succeeds and emits one frame per sample point `0, interval,
2·interval, …` up to and including `maxTick` (the largest snapshot
tick), in strictly increasing order; the frame at sample point `t` is
the snapshot under the largest eventful tick ≤ t, or the empty snapshot
when no eventful tick ≤ t exists.  In particular, with snapshots at
ticks 0, 100 and 250, the frame the sampler constructs at tick 120 is
the snapshot at tick 100 and the frame it constructs at tick 40 is the
snapshot at tick 0. -/
theorem claim_C2 (snaps : List (Nat × Snapshot)) (interval : Nat)
    (hne : snaps ≠ []) (hi : 0 < interval) :
    ∃ frames, make_frames snaps interval = some frames
      ∧ frames.map Prod.fst = tickSamples (maxTickOf snaps) interval
      ∧ (maxTickOf snaps ∈ keysOf snaps ∧ ∀ tk ∈ keysOf snaps, tk ≤ maxTickOf snaps)
      ∧ (∀ t : Nat, t ∈ frames.map Prod.fst ↔ ∃ k, t = k * interval ∧ t ≤ maxTickOf snaps)
      ∧ (frames.map Prod.fst).Pairwise (· < ·)
      ∧ (∀ t s, (t, s) ∈ frames →
          ((∃ tk ∈ keysOf snaps, tk ≤ t) →
            ∃ mx, mx ∈ keysOf snaps ∧ mx ≤ t ∧ (∀ tk ∈ keysOf snaps, tk ≤ t → tk ≤ mx)
              ∧ alookup mx snaps = some s)
          ∧ ((∀ tk ∈ keysOf snaps, ¬ tk ≤ t) → s = emptySnap))
      ∧ (∀ s0 s100 s250 : Snapshot,
          frameSnap [(0, s0), (100, s100), (250, s250)]
            (sortedTicks [(0, s0), (100, s100), (250, s250)]) 120 = s100
          ∧ frameSnap [(0, s0), (100, s100), (250, s250)]
            (sortedTicks [(0, s0), (100, s100), (250, s250)]) 40 = s0) := by
  refine ⟨_, make_frames_some snaps interval hne, ?_, maxTickOf_spec snaps hne, ?_, ?_, ?_, ?_⟩
  · rw [List.map_map]
    exact List.map_id _
  · intro t
    rw [List.map_map, show (Prod.fst ∘ fun t => (t, frameSnap snaps (sortedTicks snaps) t)) =
      id from rfl, List.map_id]
    exact mem_tickSamples _ _ _ hi
  · rw [List.map_map, show (Prod.fst ∘ fun t => (t, frameSnap snaps (sortedTicks snaps) t)) =
      id from rfl, List.map_id]
    exact pairwise_tickSamples _ _ hi
  · intro t s hmem
    rcases List.mem_map.1 hmem with ⟨t0, ht0, heq⟩
    have ht : t0 = t := congrArg Prod.fst heq
    subst ht
    have hsnap : frameSnap snaps (sortedTicks snaps) t0 = s := congrArg Prod.snd heq
    constructor
    · rintro ⟨tk, htk, htkle⟩
      obtain ⟨mx, s2, hmx1, hmx2, hmx3, hmx4, hmx5⟩ := frameSnap_lookup snaps t0 tk htk htkle
      exact ⟨mx, hmx1, hmx2, hmx3, by rw [hmx4, ← hsnap, hmx5]⟩
    · intro hnone
      rw [← hsnap, frameSnap_empty snaps t0 hnone]
  · intro s0 s100 s250
    exact ⟨rfl, rfl⟩

/-- Witness for C2 at a concrete mapping and interval. -/
theorem claim_C2_witness :
    ([((0 : Nat), emptySnap)] ≠ []) ∧ (0 : Nat) < 1 ∧
    (∃ frames, make_frames [(0, emptySnap)] 1 = some frames
      ∧ frames.map Prod.fst = tickSamples (maxTickOf [(0, emptySnap)]) 1
      ∧ (maxTickOf [(0, emptySnap)] ∈ keysOf [(0, emptySnap)]
          ∧ ∀ tk ∈ keysOf [(0, emptySnap)], tk ≤ maxTickOf [(0, emptySnap)])
      ∧ (∀ t : Nat, t ∈ frames.map Prod.fst ↔ ∃ k, t = k * 1 ∧ t ≤ maxTickOf [(0, emptySnap)])
      ∧ (frames.map Prod.fst).Pairwise (· < ·)
      ∧ (∀ t s, (t, s) ∈ frames →
          ((∃ tk ∈ keysOf [(0, emptySnap)], tk ≤ t) →
            ∃ mx, mx ∈ keysOf [(0, emptySnap)] ∧ mx ≤ t
              ∧ (∀ tk ∈ keysOf [(0, emptySnap)], tk ≤ t → tk ≤ mx)
              ∧ alookup mx [(0, emptySnap)] = some s)
          ∧ ((∀ tk ∈ keysOf [(0, emptySnap)], ¬ tk ≤ t) → s = emptySnap))
      ∧ (∀ s0 s100 s250 : Snapshot,
          frameSnap [(0, s0), (100, s100), (250, s250)]
            (sortedTicks [(0, s0), (100, s100), (250, s250)]) 120 = s100
          ∧ frameSnap [(0, s0), (100, s100), (250, s250)]
            (sortedTicks [(0, s0), (100, s100), (250, s250)]) 40 = s0)) :=
  ⟨by decide, by decide, claim_C2 [(0, emptySnap)] 1 (by decide) (by decide)⟩

/-- The input refuting C6 as stated: flit 1 is injected and ejected at
tick 0, and a later `RR` event re-places it at router 0 at tick 1 (the
code keeps the table entry and the `if global_id in flit_locations`
guard lets any later location event overwrite the `ejected` state). -/
def cex6Evs : List Ev :=
  [⟨0, 1, 0, 0, .RI 0 3⟩, ⟨0, 1, 0, 0, .SE⟩, ⟨1, 1, 0, 0, .RR 0⟩]

/-- C6 counterexample: an `Eject` for flit 1 is applied at tick 0, yet
the snapshot stored at the later tick 1 shows flit 1 resident at router
0 — ejection is not terminal on this input, and the flit is present
although it was already ejected as of tick 1. -/
theorem claim_C6_counterexample :
    ((⟨0, 1, 0, 0, .SE⟩ : Ev) ∈ cex6Evs)
    ∧ (⟨0, 1, 0, 0, .SE⟩ : Ev).kind = .SE
    ∧ (⟨0, 1, 0, 0, .SE⟩ : Ev).global_id = 1
    ∧ (⟨0, 1, 0, 0, .SE⟩ : Ev).tick ≤ 1
    ∧ ((1, (⟨[(0, [info1])], []⟩ : Snapshot)) ∈ buildTickStates cex6Evs)
    ∧ appearsIn 1 (snapGet (⟨[(0, [info1])], []⟩ : Snapshot).routers 0) := by decide

/-- C6 (amended): provided no placing event (`SI`/`RR`/`ST`/`DT`) for a
flit follows an `Eject` for that flit in tick-sorted order, ejection is
terminal: once an `Eject` for the flit has been applied, the flit
appears in no location set of the snapshot at that tick or any later
tick; and, in general, every flit present in a snapshot at tick `t` has
an `Inject` with tick ≤ t, and (under the same proviso) no `Eject` with
tick ≤ t. -/
theorem claim_C6_amended (evs : List Ev) (gid : Nat)
    (hnr : NoResurrect gid (sortEvents evs)) :
    (∀ se ∈ evs, se.kind = .SE → se.global_id = gid →
      ∀ t s, (t, s) ∈ buildTickStates evs → se.tick ≤ t → ¬ presentIn gid s)
    ∧ (∀ t s, (t, s) ∈ buildTickStates evs → presentIn gid s →
        (∃ e ∈ evs, isRI e.kind = true ∧ e.global_id = gid ∧ e.tick ≤ t)
        ∧ ¬(∃ e ∈ evs, e.kind = .SE ∧ e.global_id = gid ∧ e.tick ≤ t)) := by
  have part1 : ∀ se ∈ evs, se.kind = .SE → se.global_id = gid →
      ∀ t s, (t, s) ∈ buildTickStates evs → se.tick ≤ t → ¬ presentIn gid s := by
    intro se hse hkind hgid t s hmem hle hpres
    obtain ⟨hs, -⟩ := mem_buildTickStates evs t s hmem
    subst hs
    have hnd := nodup_keysOf_tableUpTo evs t
    rcases (presentIn_mkSnapshot _ _ hnd).1 hpres with ⟨rec, hlk, hpl⟩
    have hsef : se ∈ (sortEvents evs).filter (fun e => e.tick ≤ t) :=
      List.mem_filter.2 ⟨(mem_sortBy Ev.tick evs se).2 hse, by simpa using hle⟩
    obtain ⟨a, b, hab⟩ := List.mem_iff_append.1 hsef
    have hp : NoResurrect gid ((sortEvents evs).filter (fun e => e.tick ≤ t)) :=
      List.Pairwise.sublist (List.filter_sublist _) hnr
    rw [hab] at hp
    rw [NoResurrect, List.pairwise_append] at hp
    have hb : ∀ y ∈ b, ¬(y.global_id = gid ∧ isPlacing y.kind = true) := by
      intro y hy hc
      exact (List.pairwise_cons.1 hp.2.1).1 y hy ⟨hgid, hkind, hc.1, hc.2⟩
    rw [tableUpTo, hab] at hlk
    have hnp := notPlaced_of_SE gid a b se hkind hgid hb rec hlk
    rw [hnp] at hpl
    exact absurd hpl (by simp)
  refine ⟨part1, ?_⟩
  intro t s hmem hpres
  constructor
  · obtain ⟨hs, -⟩ := mem_buildTickStates evs t s hmem
    subst hs
    have hnd := nodup_keysOf_tableUpTo evs t
    rcases (presentIn_mkSnapshot _ _ hnd).1 hpres with ⟨rec, hlk, hpl⟩
    have hkey := mem_keys_of_alookup _ _ _ hlk
    rw [tableUpTo] at hkey
    rcases (mem_keysOf_applyAll _ _ _).1 hkey with hc | ⟨e, he, hri, hg⟩
    · simp [keysOf] at hc
    · rcases List.mem_filter.1 he with ⟨hesort, hetick⟩
      exact ⟨e, (mem_sortBy Ev.tick evs e).1 hesort, hri, hg, by simpa using hetick⟩
  · rintro ⟨e, he, hkind, hgid, hle⟩
    exact part1 e he hkind hgid t s hmem hle hpres

/-- Witness for the amended C6 at a concrete event list. -/
theorem claim_C6_amended_witness :
    NoResurrect 1 (sortEvents [⟨0, 1, 0, 0, .RI 0 3⟩, ⟨0, 1, 0, 0, .SE⟩])
    ∧ ((∀ se ∈ [(⟨0, 1, 0, 0, .RI 0 3⟩ : Ev), ⟨0, 1, 0, 0, .SE⟩], se.kind = .SE →
        se.global_id = 1 →
        ∀ t s, (t, s) ∈ buildTickStates [⟨0, 1, 0, 0, .RI 0 3⟩, ⟨0, 1, 0, 0, .SE⟩] →
          se.tick ≤ t → ¬ presentIn 1 s)
      ∧ (∀ t s, (t, s) ∈ buildTickStates [⟨0, 1, 0, 0, .RI 0 3⟩, ⟨0, 1, 0, 0, .SE⟩] →
          presentIn 1 s →
          (∃ e ∈ [(⟨0, 1, 0, 0, .RI 0 3⟩ : Ev), ⟨0, 1, 0, 0, .SE⟩],
            isRI e.kind = true ∧ e.global_id = 1 ∧ e.tick ≤ t)
          ∧ ¬(∃ e ∈ [(⟨0, 1, 0, 0, .RI 0 3⟩ : Ev), ⟨0, 1, 0, 0, .SE⟩],
            e.kind = .SE ∧ e.global_id = 1 ∧ e.tick ≤ t))) :=
  ⟨by decide, claim_C6_amended [⟨0, 1, 0, 0, .RI 0 3⟩, ⟨0, 1, 0, 0, .SE⟩] 1 (by decide)⟩

/-- The input refuting C7 as stated: the first event references flit 1
with no earlier `Inject`, but a later `Inject` arrives at tick 1 and the
flit then appears in the tick-2 snapshot. -/
def cex7Evs : List Ev :=
  [⟨0, 1, 0, 0, .RR 0⟩, ⟨1, 1, 0, 0, .RI 0 3⟩, ⟨2, 1, 0, 0, .RR 2⟩]

/-- C7 counterexample: the tick-0 `RR` event for flit 1 has no earlier
`Inject` in tick-sorted order (it is the very first event), yet flit 1
does appear in a (later) snapshot, because an `Inject` for it arrives
afterwards — refuting the claim that such a flit never appears in any
snapshot's router or link sets. -/
theorem claim_C7_counterexample :
    sortEvents cex7Evs = cex7Evs
    ∧ cex7Evs.head? = some ⟨0, 1, 0, 0, .RR 0⟩
    ∧ isRI (⟨0, 1, 0, 0, .RR 0⟩ : Ev).kind = false
    ∧ ((2, (⟨[(2, [info1])], []⟩ : Snapshot)) ∈ buildTickStates cex7Evs)
    ∧ appearsIn 1 (snapGet (⟨[(2, [info1])], []⟩ : Snapshot).routers 2) := by decide

/-- C7 (amended): a location-bearing event (`SI`/`RR`/`ST`/`DT`/`SE`)
whose `flow_id` has no earlier `Inject` in tick-sorted order leaves the
per-flit location table unchanged (so processing of subsequent events
continues exactly as if the event were absent, and no error is raised —
every function involved is total); and a flit with no `Inject` anywhere
in the event list never appears in any snapshot's router or link sets. -/
theorem claim_C7_amended (evs : List Ev) :
    (∀ (l1 l2 : List Ev) (e : Ev), sortEvents evs = l1 ++ e :: l2 →
      isRI e.kind = false →
      (∀ x ∈ l1, isRI x.kind = true → x.global_id ≠ e.global_id) →
      applyAll [] (l1 ++ [e]) = applyAll [] l1)
    ∧ (∀ gid : Nat, (∀ e ∈ evs, e.global_id = gid → isRI e.kind = false) →
        ∀ t s, (t, s) ∈ buildTickStates evs → ¬ presentIn gid s) := by
  constructor
  · intro l1 l2 e hsplit hnotri hnori
    rw [applyAll_append]
    show applyEvent (applyAll [] l1) e = applyAll [] l1
    apply applyEvent_untracked _ _ hnotri
    intro hc
    rcases (mem_keysOf_applyAll _ _ _).1 hc with h0 | ⟨x, hx, hri, hg⟩
    · simp [keysOf] at h0
    · exact hnori x hx hri hg
  · intro gid hgid t s hmem hpres
    obtain ⟨hs, -⟩ := mem_buildTickStates evs t s hmem
    subst hs
    have hnd := nodup_keysOf_tableUpTo evs t
    rcases (presentIn_mkSnapshot _ _ hnd).1 hpres with ⟨rec, hlk, hpl⟩
    have hkey := mem_keys_of_alookup _ _ _ hlk
    rw [tableUpTo] at hkey
    rcases (mem_keysOf_applyAll _ _ _).1 hkey with h0 | ⟨e, he, hri, hg⟩
    · simp [keysOf] at h0
    · have hev : e ∈ evs :=
        (mem_sortBy Ev.tick evs e).1 (List.mem_filter.1 he).1
      rw [hgid e hev hg] at hri
      exact absurd hri (by simp)

/-- The event used in the concrete decoder inputs. -/
def ev4 : Ev := ⟨0, 1, 0, 0, .RI 0 3⟩

/-- C4 counterexample: one validly framed record followed by a single
stray byte.  The decode loop has already decoded the record when the
stray length prefix fails to unpack, but `parse_log` then takes the
`return {}` path (line 44) and yields the empty mapping — discarding the
already-decoded record, which on its own would have produced a
non-empty tick-state mapping.  This refutes the claim that a length
prefix that cannot be read "never discards the already-decoded
records". -/
theorem claim_C4_counterexample :
    decodeEvents parseGarnetEvent (encodeAll [ev4] ++ [9]) = ([ev4], .lenErr)
    ∧ parse_log parseGarnetEvent (encodeAll [ev4] ++ [9]) = []
    ∧ buildTickStates [ev4] ≠ [] := by
  have hdec : decodeEvents parseGarnetEvent (encodeAll [ev4] ++ [9]) = ([ev4], .lenErr) := by
    rw [decode_encodeAll_append [ev4] [9],
      decodeEvents_short parseGarnetEvent [9] (by simp) (by simp)]
    simp
  exact ⟨hdec, parse_log_of_lenErr _ _ _ hdec, by decide⟩

/-- C4 (amended): the two framing failures behave differently.  A
truncated final record (payload shorter than its declared length) stops
the parse with a warning and keeps every record decoded so far — in
particular, truncating the final record's payload of a valid encoding
yields exactly all prior records, and a fully valid encoding decodes to
exactly its records.  But a length prefix that cannot be read (stream
ends inside the 4-byte prefix) aborts `parse_log` with an error and
discards all already-decoded records, returning the empty mapping. -/
theorem claim_C4_amended (evs : List Ev) (e : Ev) (stray : List Nat) (k : Nat)
    (hs : stray ≠ []) (hs4 : stray.length < 4) (hk0 : 0 < k) (hk7 : k ≤ 7) :
    (decodeEvents parseGarnetEvent (encodeAll evs) = (evs, .ok)
      ∧ parse_log parseGarnetEvent (encodeAll evs) = buildTickStates evs)
    ∧ (decodeEvents parseGarnetEvent
        (encodeAll evs ++ ([7, 0, 0, 0] ++ (payloadOf e).take (7 - k))) = (evs, .truncated)
      ∧ parse_log parseGarnetEvent
        (encodeAll evs ++ ([7, 0, 0, 0] ++ (payloadOf e).take (7 - k))) = buildTickStates evs)
    ∧ (decodeEvents parseGarnetEvent (encodeAll evs ++ stray) = (evs, .lenErr)
      ∧ parse_log parseGarnetEvent (encodeAll evs ++ stray) = []) := by
  have hok : decodeEvents parseGarnetEvent (encodeAll evs) = (evs, .ok) := by
    have h := decode_encodeAll_append evs []
    rw [List.append_nil, decodeEvents_nil] at h
    simpa using h
  have htr : decodeEvents parseGarnetEvent
      (encodeAll evs ++ ([7, 0, 0, 0] ++ (payloadOf e).take (7 - k))) = (evs, .truncated) := by
    rw [decode_encodeAll_append evs _, decodeEvents_truncStep parseGarnetEvent _ (by
      rw [List.length_take, payloadOf_length]
      omega)]
    simp
  have hst : decodeEvents parseGarnetEvent (encodeAll evs ++ stray) = (evs, .lenErr) := by
    rw [decode_encodeAll_append evs stray,
      decodeEvents_short parseGarnetEvent stray hs hs4]
    simp
  exact ⟨⟨hok, parse_log_of_ok _ _ _ hok⟩, ⟨htr, parse_log_of_truncated _ _ _ htr⟩,
    ⟨hst, parse_log_of_lenErr _ _ _ hst⟩⟩

/-- Witness for the amended C4 at concrete inputs. -/
theorem claim_C4_amended_witness :
    (([9] : List Nat) ≠ []) ∧ ([9] : List Nat).length < 4 ∧ (0 : Nat) < 1 ∧ (1 : Nat) ≤ 7 ∧
    ((decodeEvents parseGarnetEvent (encodeAll [ev4]) = ([ev4], .ok)
      ∧ parse_log parseGarnetEvent (encodeAll [ev4]) = buildTickStates [ev4])
    ∧ (decodeEvents parseGarnetEvent
        (encodeAll [ev4] ++ ([7, 0, 0, 0] ++ (payloadOf ev4).take (7 - 1))) = ([ev4], .truncated)
      ∧ parse_log parseGarnetEvent
        (encodeAll [ev4] ++ ([7, 0, 0, 0] ++ (payloadOf ev4).take (7 - 1))) =
          buildTickStates [ev4])
    ∧ (decodeEvents parseGarnetEvent (encodeAll [ev4] ++ [9]) = ([ev4], .lenErr)
      ∧ parse_log parseGarnetEvent (encodeAll [ev4] ++ [9]) = [])) :=
  ⟨by decide, by decide, by decide, by decide,
    claim_C4_amended [ev4] ev4 [9] 1 (by decide) (by decide) (by decide) (by decide)⟩

theorem routers_coords (n : Nat) :
    ∀ p ∈ (build_mesh_xy n).1, p.2 = (p.1 / n, p.1 % n) := by
  intro p hp
  rcases List.mem_map.1 hp with ⟨r, hr, rfl⟩
  rfl

/-- C8: `build_mesh_xy n` produces exactly `n²` routers at the integer
grid coordinates `(r / n, r % n)` (one per id in `0 .. n² - 1`) and
exactly `4·n·(n−1)` directed links — `n·(n−1)` in each of the four
direction classes (east-, west-, north-, south-going, laid out in that
order) — and every link joins two routers whose grid coordinates differ
by exactly one step in exactly one axis.  For `n = 4`: 16 routers
forming the 4×4 grid and 48 links, 12 per direction class. -/
theorem claim_C8 (n : Nat) :
    (build_mesh_xy n).1.length = n * n
    ∧ (build_mesh_xy n).1.map Prod.fst = List.range (n * n)
    ∧ (∀ p ∈ (build_mesh_xy n).1, p.2 = (p.1 / n, p.1 % n))
    ∧ (build_mesh_xy n).2.length = 4 * (n * (n - 1))
    ∧ (build_mesh_xy n).2 = eastLinks n ++ (westLinks n ++ (northLinks n ++ southLinks n))
    ∧ (eastLinks n).length = n * (n - 1) ∧ (westLinks n).length = n * (n - 1)
    ∧ (northLinks n).length = n * (n - 1) ∧ (southLinks n).length = n * (n - 1)
    ∧ (∀ pr ∈ (build_mesh_xy n).2, adjStep n pr)
    ∧ ((build_mesh_xy 4).1.length = 16
      ∧ (build_mesh_xy 4).1.map Prod.snd =
        [(0, 0), (0, 1), (0, 2), (0, 3), (1, 0), (1, 1), (1, 2), (1, 3),
         (2, 0), (2, 1), (2, 2), (2, 3), (3, 0), (3, 1), (3, 2), (3, 3)]
      ∧ (build_mesh_xy 4).2.length = 48
      ∧ (eastLinks 4).length = 12 ∧ (westLinks 4).length = 12
      ∧ (northLinks 4).length = 12 ∧ (southLinks 4).length = 12) := by
  refine ⟨by simp [build_mesh_xy], ?_, routers_coords n, links_length n, links_def n,
    eastLinks_length n, westLinks_length n, northLinks_length n, southLinks_length n,
    adjStep_of_mem_links n, by decide, by decide, by decide, by decide, by decide,
    by decide, by decide⟩
  rw [build_mesh_xy]
  rw [List.map_map]
  exact List.map_id _

/-- The log whose tick-0 snapshot has a flit on link 12 only, used to
refute the claim that a link's highlight depends only on its own count. -/
def evs9 : List Ev := [⟨0, 1, 0, 0, .RI 0 3⟩, ⟨0, 1, 0, 0, .ST 12⟩]

/-- C9 counterexample: in the tick-0 snapshot of `evs9`, link 0 of the
4×4 mesh (the directed link from router 0 to router 1) holds no flits,
yet the renderer colors it `red`, because the highlight also consults
the sibling link `lid + 12` (line 276), which does hold a flit.  This
refutes "highlighted iff its own count is greater than zero". -/
theorem claim_C9_counterexample :
    (build_mesh_xy 4).2[(0 : Nat)]? = some (0, 1)
    ∧ ((0, (⟨[], [(12, [info1])]⟩ : Snapshot)) ∈ buildTickStates evs9)
    ∧ (snapGet (⟨[], [(12, [info1])]⟩ : Snapshot).links 0).length = 0
    ∧ linkColor (⟨[], [(12, [info1])]⟩ : Snapshot) 0 0 1 = "red" := by decide

/-- C9 (amended): in every frame, a router's marker size is the linear,
strictly increasing function `count * 5 + 10` of its occupancy count and
the router is highlighted (`green`) iff its count is positive; a link's
stroke width is `max 2 (count * 2)` — non-decreasing in the link's own
count and clamped below by 2 — but the link's binary highlight state is
`red` iff its own count is positive OR the count of the sibling link at
offset 12 (`lid + 12` when source < dest, `lid − 12` otherwise) is
positive, not a function of the link's own count alone. -/
theorem claim_C9_amended (s s2 : Snapshot) (r lid a b : Nat) :
    routerSize s r = (snapGet s.routers r).length * 5 + 10
    ∧ ((snapGet s.routers r).length < (snapGet s2.routers r).length →
        routerSize s r < routerSize s2 r)
    ∧ (routerColor s r = "green" ↔ 0 < (snapGet s.routers r).length)
    ∧ linkWidth s lid = max 2 ((snapGet s.links lid).length * 2)
    ∧ 2 ≤ linkWidth s lid
    ∧ ((snapGet s.links lid).length ≤ (snapGet s2.links lid).length →
        linkWidth s lid ≤ linkWidth s2 lid)
    ∧ (linkColor s lid a b = "red" ↔
        (0 < (snapGet s.links lid).length ∨
          0 < (snapGet s.links (siblingId lid a b)).length)) := by
  refine ⟨rfl, ?_, ?_, rfl, Nat.le_max_left _ _, ?_, ?_⟩
  · intro h
    rw [routerSize, routerSize]
    omega
  · by_cases h : 0 < (snapGet s.routers r).length
    · rw [routerColor, if_pos h]
      exact ⟨fun _ => h, fun _ => rfl⟩
    · rw [routerColor, if_neg h]
      exact ⟨fun hc => absurd hc (by decide), fun hc => absurd hc h⟩
  · intro h
    rw [linkWidth, linkWidth]
    exact max_le_max (Nat.le_refl 2) (by omega)
  · by_cases hf : linkFlag s lid a b = true
    · rw [linkColor, if_pos hf]
      rw [linkFlag] at hf
      rcases Bool.or_eq_true_iff.1 hf with h1 | h1
      · exact ⟨fun _ => Or.inr (of_decide_eq_true h1), fun _ => rfl⟩
      · exact ⟨fun _ => Or.inl (of_decide_eq_true h1), fun _ => rfl⟩
    · rw [linkColor, if_neg hf]
      rw [linkFlag] at hf
      constructor
      · intro hc
        exact absurd hc (by decide)
      · intro hc
        rcases hc with h1 | h1
        · exact absurd (by simp [decide_eq_true_eq, h1]) hf
        · exact absurd (by simp [decide_eq_true_eq, h1]) hf

/-- C10: `build_mesh_xy` places router `r` at `(r / n, r % n)` (row-major)
and assigns link ids in four contiguous direction blocks of `n·(n−1)` ids
each (east, then west, then north, then south), so the opposite-direction
link over the same router pair differs in id by exactly `n·(n−1)`; the
source id is smaller than the destination id exactly in the east and
north blocks; and the renderer's hard-coded sibling offset of 12
coincides with this counterpart pairing exactly when `n = 4`. -/
theorem claim_C10 (n : Nat) (hn : 2 ≤ n) :
    (∀ p ∈ (build_mesh_xy n).1, p.2 = (p.1 / n, p.1 % n))
    ∧ (build_mesh_xy n).2.length = 4 * (n * (n - 1))
    ∧ (∀ j, j < n * (n - 1) → ∃ a b, (build_mesh_xy n).2[j]? = some (a, b)
        ∧ (build_mesh_xy n).2[j + n * (n - 1)]? = some (b, a))
    ∧ (∀ j, j < n * (n - 1) →
        ∃ a b, (build_mesh_xy n).2[2 * (n * (n - 1)) + j]? = some (a, b)
          ∧ (build_mesh_xy n).2[3 * (n * (n - 1)) + j]? = some (b, a))
    ∧ (∀ lid a b, (build_mesh_xy n).2[lid]? = some (a, b) →
        (a < b ↔ (lid < n * (n - 1)
          ∨ (2 * (n * (n - 1)) ≤ lid ∧ lid < 3 * (n * (n - 1))))))
    ∧ (siblingOK n ↔ n = 4) := by
  refine ⟨routers_coords n, links_length n, ?_, ?_, ?_, ?_⟩
  · intro j hj
    refine ⟨(ePair n j).1, (ePair n j).2, ?_, ?_⟩
    · rw [links_getElem_east n j hj]
    · rw [Nat.add_comm j (n * (n - 1)), links_getElem_west n j hj]
  · intro j hj
    refine ⟨(nPair n j).1, (nPair n j).2, ?_, ?_⟩
    · rw [links_getElem_north n j hj]
    · rw [links_getElem_south n j hj]
  · intro lid a b hlk
    by_cases h1 : lid < n * (n - 1)
    · rw [links_getElem_east n lid h1] at hlk
      have hab := Option.some.inj hlk
      have ha : a = lid % (n - 1) + lid / (n - 1) * n := (congrArg Prod.fst hab).symm
      have hb : b = (lid % (n - 1) + 1) + lid / (n - 1) * n := (congrArg Prod.snd hab).symm
      constructor
      · intro _
        exact Or.inl h1
      · intro _
        omega
    · by_cases h2 : lid < 2 * (n * (n - 1))
      · have hj : lid - n * (n - 1) < n * (n - 1) := by omega
        have hget := links_getElem_west n (lid - n * (n - 1)) hj
        rw [show n * (n - 1) + (lid - n * (n - 1)) = lid by omega] at hget
        rw [hget] at hlk
        have hab := Option.some.inj hlk
        have ha : a = ((lid - n * (n - 1)) % (n - 1) + 1) + (lid - n * (n - 1)) / (n - 1) * n :=
          (congrArg Prod.fst hab).symm
        have hb : b = (lid - n * (n - 1)) % (n - 1) + (lid - n * (n - 1)) / (n - 1) * n :=
          (congrArg Prod.snd hab).symm
        constructor
        · intro hc
          omega
        · intro hc
          omega
      · by_cases h3 : lid < 3 * (n * (n - 1))
        · have hj : lid - 2 * (n * (n - 1)) < n * (n - 1) := by omega
          have hget := links_getElem_north n (lid - 2 * (n * (n - 1))) hj
          rw [show 2 * (n * (n - 1)) + (lid - 2 * (n * (n - 1))) = lid by omega] at hget
          rw [hget] at hlk
          have hab := Option.some.inj hlk
          have ha : a = (lid - 2 * (n * (n - 1))) / (n - 1)
              + (lid - 2 * (n * (n - 1))) % (n - 1) * n := (congrArg Prod.fst hab).symm
          have hb : b = (lid - 2 * (n * (n - 1))) / (n - 1)
              + ((lid - 2 * (n * (n - 1))) % (n - 1) + 1) * n := (congrArg Prod.snd hab).symm
          have hexp : ((lid - 2 * (n * (n - 1))) % (n - 1) + 1) * n =
              (lid - 2 * (n * (n - 1))) % (n - 1) * n + n := by ring
          constructor
          · intro _
            exact Or.inr ⟨by omega, h3⟩
          · intro _
            omega
        · by_cases h4 : lid < 4 * (n * (n - 1))
          · have hj : lid - 3 * (n * (n - 1)) < n * (n - 1) := by omega
            have hget := links_getElem_south n (lid - 3 * (n * (n - 1))) hj
            rw [show 3 * (n * (n - 1)) + (lid - 3 * (n * (n - 1))) = lid by omega] at hget
            rw [hget] at hlk
            have hab := Option.some.inj hlk
            have ha : a = (lid - 3 * (n * (n - 1))) / (n - 1)
                + ((lid - 3 * (n * (n - 1))) % (n - 1) + 1) * n := (congrArg Prod.fst hab).symm
            have hb : b = (lid - 3 * (n * (n - 1))) / (n - 1)
                + (lid - 3 * (n * (n - 1))) % (n - 1) * n := (congrArg Prod.snd hab).symm
            have hexp : ((lid - 3 * (n * (n - 1))) % (n - 1) + 1) * n =
                (lid - 3 * (n * (n - 1))) % (n - 1) * n + n := by ring
            constructor
            · intro hc
              omega
            · intro hc
              omega
          · rw [List.getElem?_eq_none (by rw [links_length]; omega)] at hlk
            exact absurd hlk (by simp)
  · constructor
    · intro hok
      by_cases he2 : n = 2
      · exfalso
        rw [he2] at hok
        exact absurd hok (by decide)
      · by_cases he3 : n = 3
        · exfalso
          rw [he3] at hok
          exact absurd hok (by decide)
        · by_cases he4 : n = 4
          · exact he4
          · exfalso
            have h5 : 5 ≤ n := by omega
            have hm : 20 ≤ n * (n - 1) := by
              calc (20 : Nat) = 5 * 4 := rfl
              _ ≤ n * (n - 1) := Nat.mul_le_mul h5 (by omega)
            have h0 : (build_mesh_xy n).2[(0 : Nat)]? = some (0, 1) := by
              rw [links_getElem_east n 0 (by omega)]
              simp [ePair]
            have hchk := hok 0 (by rw [links_length]; omega)
            rw [siblingCheck, h0] at hchk
            simp only [decide_eq_true_eq] at hchk
            have hsib : siblingId 0 0 1 = 12 := by decide
            rw [hsib] at hchk
            rw [links_getElem_east n 12 (by omega)] at hchk
            have hab := Option.some.inj hchk
            have hb := congrArg Prod.snd hab
            simp only [ePair] at hb
            omega
    · intro h4
      rw [h4]
      decide

/-- Witness for C10 at the mesh size the application uses. -/
theorem claim_C10_witness :
    (2 : Nat) ≤ 4 ∧
    ((∀ p ∈ (build_mesh_xy 4).1, p.2 = (p.1 / 4, p.1 % 4))
    ∧ (build_mesh_xy 4).2.length = 4 * (4 * (4 - 1))
    ∧ (∀ j, j < 4 * (4 - 1) → ∃ a b, (build_mesh_xy 4).2[j]? = some (a, b)
        ∧ (build_mesh_xy 4).2[j + 4 * (4 - 1)]? = some (b, a))
    ∧ (∀ j, j < 4 * (4 - 1) →
        ∃ a b, (build_mesh_xy 4).2[2 * (4 * (4 - 1)) + j]? = some (a, b)
          ∧ (build_mesh_xy 4).2[3 * (4 * (4 - 1)) + j]? = some (b, a))
    ∧ (∀ lid a b, (build_mesh_xy 4).2[lid]? = some (a, b) →
        (a < b ↔ (lid < 4 * (4 - 1)
          ∨ (2 * (4 * (4 - 1)) ≤ lid ∧ lid < 3 * (4 * (4 - 1))))))
    ∧ (siblingOK 4 ↔ 4 = 4)) :=
  ⟨by decide, claim_C10 4 (by decide)⟩

end GarnetViz
